import Mathlib

/-!
# yt-audio: a shallow embedding of `src/index.js`

JavaScript strings are embedded as lists of characters (`JSString`).  All the
separators, white space and pattern characters the program looks at lie in the
Basic Multilingual Plane, where a character and a UTF-16 code unit coincide.

The built-ins of the language that the program calls (`String.prototype.trim`,
`split`, `endsWith`, `Number`, the arithmetic of Number values, the regular
expression matcher, a few `fs` calls) are embedded next to the functions of the
program; the two external tools (the download client and the transcoder) are
parameters.
-/

namespace YtAudio

/-- A JavaScript string. -/
abbrev JSString := List Char

/-! ## White space, `trim`, `split` -/

/-- The code points of ECMAScript `WhiteSpace` and `LineTerminator`: what
`String.prototype.trim` strips and what `\s` matches. -/
def isJSWhiteSpace (c : Char) : Bool :=
  let n := c.toNat
  n == 0x09 || n == 0x0A || n == 0x0B || n == 0x0C || n == 0x0D || n == 0x20 ||
  n == 0xA0 || n == 0x1680 || (0x2000 ≤ n && n ≤ 0x200A) ||
  n == 0x2028 || n == 0x2029 || n == 0x202F || n == 0x205F || n == 0x3000 || n == 0xFEFF

/-- Strip leading white space. -/
def trimStart : JSString → JSString
  | [] => []
  | c :: cs => if isJSWhiteSpace c then trimStart cs else c :: cs

/-- The method `String.prototype.trim`. -/
def trim (s : JSString) : JSString :=
  (trimStart (trimStart s).reverse).reverse

/-- Split at every occurrence of the one-character separator `sep`; `cur` holds,
reversed, the characters of the piece being read. -/
def splitAux (sep : Char) : JSString → JSString → List JSString
  | [], cur => [cur.reverse]
  | c :: cs, cur =>
    if c = sep then cur.reverse :: splitAux sep cs [] else splitAux sep cs (c :: cur)

/-- The method `String.prototype.split` with a one-character separator: the
empty string gives one empty piece, `n` separators give `n + 1` pieces. -/
def split (sep : Char) (s : JSString) : List JSString :=
  splitAux sep s []

/-! ## Entries and `parseInput` (file mode) -/

/-- One requested clip, as pushed by `parseInput`. -/
structure Entry where
  url : JSString
  start : JSString
  «end» : JSString
  deriving DecidableEq, Repr

/-- The body of the `for (const line of lines)` loop of `parseInput`:
`parts = line.trim().split(' ')`, and an entry when `parts.length >= 3`. -/
def parseLine (line : JSString) : Option Entry :=
  match split ' ' (trim line) with
  | url :: start :: e :: _ => some ⟨url, start, e⟩
  | _ => none

/-- The function `parseInput` when `options.input` is set, applied to the text
read from the file: `fileContent.split('\n').filter(line => line.trim())`, then
the loop over the lines that are left. -/
def parseInput (fileContent : JSString) : List Entry :=
  ((split '\n' fileContent).filter (fun line => !(trim line).isEmpty)).filterMap parseLine

/-! ## Number values

A Number value is `NaN`, an infinity or a finite binary64 value, kept here as
the rational number it denotes.  Every arithmetic operation computes the exact
rational result and rounds it to binary64 with `roundRat` (IEEE 754 round to
nearest, ties to even).  The sign of a zero is not tracked. -/

/-- A Number value: `NaN`, an infinity, or the finite value `q`. -/
inductive JSNumber where
  | nan
  | inf (neg : Bool)
  | fin (q : ℚ)
  deriving DecidableEq

/-- Round the rational `q` to a binary floating-point format with 53
significant bits, nearest with ties to even.  The magnitude is counted in units
of `2 ^ (-unit)`, the smallest subnormal of the format: it is `a / b` units.
Below `2 ^ 53` units the grid step is one unit (subnormal and lowest normal
range); above, 53 significant bits are kept.  A magnitude that rounds to
`2 ^ top` units or more becomes an infinity. -/
def roundBinary (unit top : Nat) (q : ℚ) : JSNumber :=
  let a := q.num.natAbs * 2 ^ unit
  let b := q.den
  let shift := Nat.log 2 (a / b) - 52
  let d := b * 2 ^ shift
  let n := a / d
  let r := a % d
  let n1 := if d < 2 * r ∨ (2 * r = d ∧ n % 2 = 1) then n + 1 else n
  let k := n1 * 2 ^ shift
  if 2 ^ top ≤ k then .inf (decide (q < 0))
  else .fin ((if q < 0 then -(k : ℚ) else (k : ℚ)) / 2 ^ unit)

/-- Round the rational `q` to binary64: the smallest subnormal is
`2 ^ (-1074)` and the values from `2 ^ 1024` on, that is `2 ^ 2098` units, are
infinite. -/
def roundRat (q : ℚ) : JSNumber :=
  roundBinary 1074 2098 q

namespace JSNumber

/-- The Number value of a numeric literal of the program such as `3600`. -/
def ofNat (n : Nat) : JSNumber := roundRat n

/-- Unary minus. -/
def neg : JSNumber → JSNumber
  | nan => nan
  | inf s => inf (!s)
  | fin q => fin (-q)

/-- The operator `+` on Number values. -/
def add : JSNumber → JSNumber → JSNumber
  | nan, _ => nan
  | _, nan => nan
  | inf s, inf t => if s = t then inf s else nan
  | inf s, fin _ => inf s
  | fin _, inf t => inf t
  | fin x, fin y => roundRat (x + y)

/-- The operator `-` on Number values. -/
def sub (x y : JSNumber) : JSNumber := add x (neg y)

/-- The operator `*` on Number values. -/
def mul : JSNumber → JSNumber → JSNumber
  | nan, _ => nan
  | _, nan => nan
  | inf s, inf t => inf (s != t)
  | inf s, fin y => if y = 0 then nan else inf (s != decide (y < 0))
  | fin x, inf t => if x = 0 then nan else inf (decide (x < 0) != t)
  | fin x, fin y => roundRat (x * y)

/-- A Number value that is a non-negative integer. -/
def IsNonNegInteger : JSNumber → Prop
  | fin q => 0 ≤ q ∧ q.den = 1
  | _ => False

end JSNumber

/-! ## `Number(string)` -/

/-- The value of a digit in base up to 16 (`none` for any other character). -/
def digitValue (c : Char) : Option Nat :=
  if '0' ≤ c ∧ c ≤ '9' then some (c.toNat - 48)
  else if 'a' ≤ c ∧ c ≤ 'f' then some (c.toNat - 87)
  else if 'A' ≤ c ∧ c ≤ 'F' then some (c.toNat - 55)
  else none

/-- The digit `c` in base `base`. -/
def isDigitIn (base : Nat) (c : Char) : Bool :=
  match digitValue c with
  | some v => decide (v < base)
  | none => false

/-- The mathematical value of a string of digits in base `base`. -/
def digitsValue (base : Nat) (ds : JSString) : Nat :=
  ds.foldl (fun acc c => base * acc + (digitValue c).getD 0) 0

/-- Round `m * 10 ^ e` to a Number value. -/
def roundDecimal (neg : Bool) (m : Nat) (e : Int) : JSNumber :=
  match roundRat ((m : ℚ) * (10 : ℚ) ^ e) with
  | .fin q => .fin (if neg then -q else q)
  | .inf _ => .inf neg
  | .nan => .nan

/-- The grammar `ExponentPart_opt` at the end of a numeric string: the decimal
exponent, or `none` when what is left is not an exponent part. -/
def parseExponent : JSString → Option Int
  | [] => some 0
  | c :: rest =>
    if c = 'e' ∨ c = 'E' then
      match rest with
      | '+' :: ds => if ds ≠ [] ∧ ds.all (isDigitIn 10) then some (digitsValue 10 ds) else none
      | '-' :: ds => if ds ≠ [] ∧ ds.all (isDigitIn 10) then some (-(digitsValue 10 ds : Int)) else none
      | ds => if ds ≠ [] ∧ ds.all (isDigitIn 10) then some (digitsValue 10 ds) else none
    else none

/-- The grammar `StrUnsignedDecimalLiteral` with the sign already read. -/
def parseUnsignedDecimal (neg : Bool) (s : JSString) : JSNumber :=
  if s = "Infinity".toList then .inf neg
  else
    let ip := s.takeWhile (isDigitIn 10)
    let rest := s.dropWhile (isDigitIn 10)
    match rest with
    | '.' :: rest1 =>
      let fp := rest1.takeWhile (isDigitIn 10)
      let rest2 := rest1.dropWhile (isDigitIn 10)
      if ip = [] ∧ fp = [] then .nan
      else
        match parseExponent rest2 with
        | some e => roundDecimal neg (digitsValue 10 (ip ++ fp)) (e - fp.length)
        | none => .nan
    | _ =>
      if ip = [] then .nan
      else
        match parseExponent rest with
        | some e => roundDecimal neg (digitsValue 10 ip) e
        | none => .nan

/-- The grammar `NonDecimalIntegerLiteral` after its two-character prefix. -/
def parseRadix (base : Nat) (ds : JSString) : JSNumber :=
  if ds ≠ [] ∧ ds.all (isDigitIn base) then roundDecimal false (digitsValue base ds) 0 else .nan

/-- The built-in `Number` applied to a string (the abstract operation
`StringToNumber`): white space is trimmed, the empty string is `0`, a string
that is not a numeric literal is `NaN`, and the value of a literal is rounded
to the nearest Number value. -/
def Number (s : JSString) : JSNumber :=
  match trim s with
  | [] => .fin 0
  | '0' :: 'x' :: ds => parseRadix 16 ds
  | '0' :: 'X' :: ds => parseRadix 16 ds
  | '0' :: 'o' :: ds => parseRadix 8 ds
  | '0' :: 'O' :: ds => parseRadix 8 ds
  | '0' :: 'b' :: ds => parseRadix 2 ds
  | '0' :: 'B' :: ds => parseRadix 2 ds
  | '+' :: ds => parseUnsignedDecimal false ds
  | '-' :: ds => parseUnsignedDecimal true ds
  | ds => parseUnsignedDecimal false ds

/-! ## `timeToSeconds` -/

/-- The function `timeToSeconds`: `time.split(':').map(Number)`, then the
three-part, two-part and fallback branches. -/
def timeToSeconds (time : JSString) : JSNumber :=
  match (split ':' time).map Number with
  | [h, m, s] => ((h.mul (.ofNat 3600)).add (m.mul (.ofNat 60))).add s
  | [m, s] => (m.mul (.ofNat 60)).add s
  | _ => Number time

/-! ## Regular expressions and `getVideoId`

A backtracking matcher in continuation-passing style, following the
specification of the language: alternatives are tried left to right,
quantifiers are greedy, and the search tries the start positions from the left.
The matcher implements the flag `i` for patterns whose literal characters are
ASCII (upper-casing is then the ASCII one); that is the case of the pattern of
`getVideoId`. -/

/-- A member of a character class. -/
inductive ClassItem where
  | chr (c : Char)
  | space
  deriving DecidableEq

/-- The character `ch` belongs to the class item. -/
def ClassItem.test (ch : Char) : ClassItem → Bool
  | .chr c => ch.toUpper == c.toUpper
  | .space => isJSWhiteSpace ch

/-- A line terminator: what `.` does not match. -/
def isLineTerminator (c : Char) : Bool :=
  let n := c.toNat
  n == 0x0A || n == 0x0D || n == 0x2028 || n == 0x2029

/-- The abstract syntax of the patterns used by the program. -/
inductive Regex where
  | empty
  | char (c : Char)
  | any
  | cls (negated : Bool) (items : List ClassItem)
  | seq (a b : Regex)
  | alt (a b : Regex)
  | star (a : Regex)
  | group (a : Regex)

namespace Regex

/-- The pattern `a+`. -/
def plus (a : Regex) : Regex := seq a (star a)

/-- The pattern `a?`. -/
def opt (a : Regex) : Regex := alt a empty

/-- The pattern `a{n}`. -/
def times : Nat → Regex → Regex
  | 0, _ => empty
  | n + 1, a => seq a (times n a)

/-- A sequence of literal characters. -/
def lit (s : JSString) : Regex :=
  s.foldr (fun c r => seq (char c) r) empty

end Regex

/-- The state of a match: the input that is left and the text captured by the
group of the pattern. -/
structure MatchState where
  rest : JSString
  cap : Option JSString

/-- The loop of a greedy `*`: one more iteration of `step` when it consumes
input, else the continuation. -/
def starLoop (step : MatchState → (MatchState → Option MatchState) → Option MatchState) :
    Nat → MatchState → (MatchState → Option MatchState) → Option MatchState
  | 0, s, k => k s
  | fuel + 1, s, k =>
    match step s (fun s1 =>
        if s1.rest.length < s.rest.length then starLoop step fuel s1 k else none) with
    | some r => some r
    | none => k s

/-- Match the pattern at the head of the input, then call the continuation;
`none` is failure and makes the caller backtrack. -/
def Regex.run : Regex → MatchState → (MatchState → Option MatchState) → Option MatchState
  | .empty, s, k => k s
  | .char c, s, k =>
    match s.rest with
    | ch :: rest => if ch.toUpper == c.toUpper then k { s with rest := rest } else none
    | [] => none
  | .any, s, k =>
    match s.rest with
    | ch :: rest => if isLineTerminator ch then none else k { s with rest := rest }
    | [] => none
  | .cls negated items, s, k =>
    match s.rest with
    | ch :: rest => if (items.any (ClassItem.test ch)) != negated then k { s with rest := rest } else none
    | [] => none
  | .seq a b, s, k => a.run s (fun s1 => b.run s1 k)
  | .alt a b, s, k =>
    match a.run s k with
    | some r => some r
    | none => b.run s k
  | .star a, s, k => starLoop a.run s.rest.length s k
  | .group a, s, k =>
    a.run s (fun s1 => k { s1 with cap := some (s.rest.take (s.rest.length - s1.rest.length)) })

/-- The first match of the pattern in the input, trying the start positions
from the left, as `String.prototype.match` does for a pattern without `g`. -/
def Regex.search (re : Regex) : JSString → Option MatchState
  | [] => re.run ⟨[], none⟩ some
  | c :: cs =>
    match re.run ⟨c :: cs, none⟩ some with
    | some r => some r
    | none => re.search cs

/-- The first alternative after the host name, `[^\/]+\/.+\/`. -/
def pathForm : Regex :=
  .seq (Regex.plus (.cls true [.chr '/']))
    (.seq (.char '/') (.seq (Regex.plus .any) (.char '/')))

/-- The second alternative after the host name, `(?:v|e(?:mbed)?)\/`. -/
def embedForm : Regex :=
  .seq (.alt (.char 'v') (.seq (.char 'e') (Regex.opt (.lit "mbed".toList)))) (.char '/')

/-- The third alternative after the host name, `.*[?&]v=`. -/
def queryForm : Regex :=
  .seq (.star .any) (.seq (.cls false [.chr '?', .chr '&']) (.seq (.char 'v') (.char '=')))

/-- The capturing group, `([^"&?\/\s]{11})`. -/
def idGroup : Regex :=
  .group (Regex.times 11 (.cls true [.chr '"', .chr '&', .chr '?', .chr '/', .space]))

/-- The pattern of `getVideoId`:
`/(?:youtube\.com\/(?:[^\/]+\/.+\/|(?:v|e(?:mbed)?)\/|.*[?&]v=)|youtu\.be\/)([^"&?\/\s]{11})/i`. -/
def videoIdRegex : Regex :=
  .seq
    (.alt
      (.seq (.lit "youtube.com/".toList) (.alt pathForm (.alt embedForm queryForm)))
      (.lit "youtu.be/".toList))
    idGroup

/-- The function `getVideoId`: `match ? match[1] : null`.  The pattern has no
flag `u`, so the source counts the eleven characters of the group in UTF-16
code units; the count here is in characters, which is the same for a URL
without a character outside the Basic Multilingual Plane. -/
def getVideoId (url : JSString) : Option JSString :=
  match videoIdRegex.search url with
  | some m => m.cap
  | none => none

/-! ## The file system

The part of `fs` the program uses.  A path string is first resolved by the
system (working directory, links) to the canonical path of the file it names,
so that two strings may name one file; a file is a canonical path with its
bytes (hard links are not modelled).  The system may refuse to create, replace or remove a file (missing
parent directory, permissions, ...). -/

/-- The value thrown or passed to `reject`: an `Error` object with its message
(the program and the two tools reject with `Error` objects only). -/
structure Error where
  message : JSString
  deriving DecidableEq

/-- The content of a file. -/
abbrev Bytes := List UInt8

/-- The state of the file system. -/
structure FileSystem where
  /-- The canonical path of the file that a path string names. -/
  resolve : JSString → JSString
  /-- The error raised when a file is created, replaced or removed at a
  canonical path, when the system refuses it. -/
  refusal : JSString → Option Error
  /-- The files, by canonical path, each with its content. -/
  files : List (JSString × Bytes)
  /-- The directories, by canonical path. -/
  dirs : List JSString

namespace FileSystem

/-- The content of the file that `path` names, when there is one. -/
def read (fs : FileSystem) (path : JSString) : Option Bytes :=
  fs.files.lookup (fs.resolve path)

/-- Create or replace the file that `path` names. -/
def write (fs : FileSystem) (path : JSString) (content : Bytes) : FileSystem :=
  { fs with
    files := (fs.resolve path, content) :: fs.files.filter (fun f => f.1 ≠ fs.resolve path) }

/-- Remove the file that `path` names. -/
def remove (fs : FileSystem) (path : JSString) : FileSystem :=
  { fs with files := fs.files.filter (fun f => f.1 ≠ fs.resolve path) }

/-- The name of `path` inside the directory `dir`, when `path` lies directly in it. -/
def childName (dir path : JSString) : Option JSString :=
  if (dir ++ ['/']) <+: path then
    let name := path.drop (dir.length + 1)
    if name ≠ [] ∧ '/' ∉ name then some name else none
  else none

/-- The call `fs.copyFileSync(src, dest)`: the source has to exist and the
system has to accept the write; a copy of a file onto itself leaves it as it is. -/
def copyFileSync (fs : FileSystem) (src dest : JSString) : Except Error FileSystem :=
  match fs.read src with
  | none =>
    .error ⟨"ENOENT: no such file or directory, copyfile '".toList ++ src ++ "' -> '".toList ++
      dest ++ "'".toList⟩
  | some content =>
    match fs.refusal (fs.resolve dest) with
    | some e => .error e
    | none => .ok (fs.write dest content)

/-- The call `fs.unlinkSync(path)`. -/
def unlinkSync (fs : FileSystem) (path : JSString) : Except Error FileSystem :=
  match fs.read path with
  | none => .error ⟨"ENOENT: no such file or directory, unlink '".toList ++ path ++ "'".toList⟩
  | some _ =>
    match fs.refusal (fs.resolve path) with
    | some e => .error e
    | none => .ok (fs.remove path)

/-- The call `fs.readdirSync(dir)`. -/
def readdirSync (fs : FileSystem) (dir : JSString) : Except Error (List JSString) :=
  if fs.resolve dir ∈ fs.dirs then
    .ok ((fs.files.map Prod.fst ++ fs.dirs).filterMap (childName (fs.resolve dir)))
  else .error ⟨"ENOENT: no such file or directory, scandir '".toList ++ dir ++ "'".toList⟩

/-- The call `fs.rmdirSync(dir)`. -/
def rmdirSync (fs : FileSystem) (dir : JSString) : Except Error FileSystem :=
  match fs.readdirSync dir with
  | .ok [] => .ok { fs with dirs := fs.dirs.filter (fun d => d ≠ fs.resolve dir) }
  | .ok _ => .error ⟨"ENOTEMPTY: directory not empty, rmdir '".toList ++ dir ++ "'".toList⟩
  | .error e => .error e

end FileSystem

/-- The call `path.join(dir, name)` for a normalised `dir` and a `name` that is
one path segment (no separator, not a dot segment), on a POSIX system. -/
def pathJoin (dir name : JSString) : JSString :=
  dir ++ '/' :: name

/-! ## The outside world: the file system and the calls made so far -/

/-- A call the program makes, with its arguments. -/
inductive Event where
  | processVideo (index : Nat) (entry : Entry)
  | getInfo (url : JSString)
  | download (url file : JSString)
  | trim (input : JSString) (startTime duration : JSNumber) (output : JSString)
  | merge (inputs : List JSString) (output bitrate : JSString)
  deriving DecidableEq

/-- The state the program runs in. -/
structure World where
  fs : FileSystem
  trace : List Event

/-- Append a call to the trace. -/
def World.log (w : World) (e : Event) : World :=
  { w with trace := w.trace ++ [e] }

/-- The two external tools.  Each operation sees the world at the time of the
call (the call itself is already in the trace), so that its outcome may depend
on anything that happened before.  `none` is completion without error. -/
structure Collaborators where
  /-- The call `ytdl.getInfo(url, ...)`, followed by the read of
  `info.videoDetails.title`: the title or the error. -/
  getInfo : World → JSString → Except Error JSString
  /-- The audio stream of `ytdl(url, ...)` piped into a write stream on `file`,
  up to `finish` or to the first `error` of either stream. -/
  download : World → JSString → JSString → Option Error × FileSystem
  /-- The command `ffmpeg(input).setStartTime(start).setDuration(duration).output(output).run()`,
  up to its `end` or `error` event. -/
  trim : World → JSString → JSNumber → JSNumber → JSString → Option Error × FileSystem
  /-- The command `ffmpeg().input(..)...mergeToFile(output, TEMP_DIR)` with the
  bitrate option, up to its `end` or `error` event. -/
  merge : World → List JSString → JSString → JSString → Option Error × FileSystem

/-! ## `processVideo` -/

/-- A clip descriptor, as resolved by `processVideo`. -/
structure Clip where
  file : JSString
  title : JSString
  start : JSString
  «end» : JSString
  deriving DecidableEq

/-- A word character of a pattern, `\w`. -/
def isWordChar (c : Char) : Bool :=
  let n := c.toNat
  (48 ≤ n && n ≤ 57) || (65 ≤ n && n ≤ 90) || (97 ≤ n && n ≤ 122) || n == 95

/-- The expression `title.replace(/[^\w\s]/gi, '')`. -/
def cleanTitle (title : JSString) : JSString :=
  title.filter (fun c => isWordChar c || isJSWhiteSpace c)

/-- The constant `tempFullAudio` of `processVideo`. -/
def tempFullAudio (TEMP_DIR videoId : JSString) : JSString :=
  pathJoin TEMP_DIR (videoId ++ "_full.mp3".toList)

/-- The constant `tempClipAudio` of `processVideo`. -/
def tempClipAudio (TEMP_DIR videoId : JSString) : JSString :=
  pathJoin TEMP_DIR (videoId ++ "_clip.mp3".toList)

/-- The statement `try { fs.unlinkSync(path) } catch (err) { console.warn(..) }`. -/
def tryUnlink (fs : FileSystem) (path : JSString) : FileSystem :=
  match fs.unlinkSync path with
  | .ok fs1 => fs1
  | .error _ => fs

/-- The function `processVideo`: the promise it returns settles with a clip
descriptor or with an error. -/
def processVideo (ext : Collaborators) (TEMP_DIR : JSString) (entry : Entry) (index : Nat)
    (w : World) : Except Error Clip × World :=
  let w0 := w.log (.processVideo index entry)
  match getVideoId entry.url with
  | none => (.error ⟨"Could not extract video ID from URL".toList⟩, w0)
  | some videoId =>
    if videoId = [] then (.error ⟨"Could not extract video ID from URL".toList⟩, w0)
    else
      let standardUrl := "https://www.youtube.com/watch?v=".toList ++ videoId
      let w1 := w0.log (.getInfo standardUrl)
      match ext.getInfo w1 standardUrl with
      | .error e => (.error e, w1)
      | .ok title =>
        let videoTitle := cleanTitle title
        let full := tempFullAudio TEMP_DIR videoId
        let clip := tempClipAudio TEMP_DIR videoId
        let w2 := w1.log (.download standardUrl full)
        match ext.download w2 standardUrl full with
        | (some e, fs) => (.error e, { w2 with fs := fs })
        | (none, fs) =>
          let startSeconds := timeToSeconds entry.start
          let endSeconds := timeToSeconds entry.end
          let duration := endSeconds.sub startSeconds
          let w3 := ({ w2 with fs := fs } : World).log (.trim full startSeconds duration clip)
          match ext.trim w3 full startSeconds duration clip with
          | (some e, fs1) => (.error e, { w3 with fs := fs1 })
          | (none, fs1) =>
            (.ok ⟨clip, videoTitle, entry.start, entry.end⟩, { w3 with fs := tryUnlink fs1 full })

/-! ## `mergeAudioFiles` -/

/-- The statement `if (fs.readdirSync(TEMP_DIR).length === 0) fs.rmdirSync(TEMP_DIR)`. -/
def removeIfEmpty (fs : FileSystem) (TEMP_DIR : JSString) : Except Error FileSystem :=
  match fs.readdirSync TEMP_DIR with
  | .error e => .error e
  | .ok names => if names.length = 0 then fs.rmdirSync TEMP_DIR else .ok fs

/-- The function `mergeAudioFiles`: the promise it returns resolves or is rejected. -/
def mergeAudioFiles (ext : Collaborators) (TEMP_DIR bitrate : JSString) (clips : List Clip)
    (outputFilename : JSString) (w : World) : Except Error Unit × World :=
  match clips with
  | [] => (.error ⟨"No clips to merge".toList⟩, w)
  | [c] =>
    match w.fs.copyFileSync c.file outputFilename with
    | .error e => (.error e, w)
    | .ok fs1 =>
      match fs1.unlinkSync c.file with
      | .error e => (.error e, { w with fs := fs1 })
      | .ok fs2 =>
        match removeIfEmpty fs2 TEMP_DIR with
        | .error e => (.error e, { w with fs := fs2 })
        | .ok fs3 => (.ok (), { w with fs := fs3 })
  | _ =>
    let inputs := clips.map (fun c => c.file)
    let w1 := w.log (.merge inputs outputFilename bitrate)
    match ext.merge w1 inputs outputFilename bitrate with
    | (some e, fs) => (.error e, { w1 with fs := fs })
    | (none, fs) =>
      let fs1 := clips.foldl (fun acc c => tryUnlink acc c.file) fs
      match removeIfEmpty fs1 TEMP_DIR with
      | .error _ => (.ok (), { w1 with fs := fs1 })
      | .ok fs2 => (.ok (), { w1 with fs := fs2 })

/-! ## `main` -/

/-- The command-line options. -/
structure Options where
  output : JSString
  format : JSString
  bitrate : JSString

/-- The loop `for (let i = 0; i < entries.length; i++)` of `main`, from the
index `i` on, `entries` being the entries from `entries[i]` on: a clip is pushed
when `processVideo` resolves, a rejection is logged and the loop goes on. -/
def processAll (ext : Collaborators) (TEMP_DIR : JSString) :
    List Entry → Nat → List Clip → World → List Clip × World
  | [], _, processedClips, w => (processedClips, w)
  | entry :: entries, i, processedClips, w =>
    match processVideo ext TEMP_DIR entry i w with
    | (.ok clip, w1) => processAll ext TEMP_DIR entries (i + 1) (processedClips ++ [clip]) w1
    | (.error _, w1) => processAll ext TEMP_DIR entries (i + 1) processedClips w1

/-- The constant `outputFilename` of `main`. -/
def outputFilename (output format : JSString) : JSString :=
  if ('.' :: format) <:+ output then output else output ++ '.' :: format

/-- What a run of `main` did: the exit status when `process.exit(1)` was called
(`0` is the normal return), and the arguments of the call of `mergeAudioFiles`
when it was reached. -/
structure RunResult where
  exitCode : Nat
  mergeCall : Option (List Clip × JSString)
  world : World

/-- The function `main`, in file mode, applied to the text of the input file. -/
def main (ext : Collaborators) (TEMP_DIR : JSString) (options : Options) (fileContent : JSString)
    (w : World) : RunResult :=
  let entries := parseInput fileContent
  if entries.length = 0 then ⟨0, none, w⟩
  else
    match processAll ext TEMP_DIR entries 0 [] w with
    | (processedClips, w1) =>
      if processedClips.length = 0 then ⟨0, none, w1⟩
      else
        let out := outputFilename options.output options.format
        match mergeAudioFiles ext TEMP_DIR options.bitrate processedClips out w1 with
        | (.ok _, w2) => ⟨0, some (processedClips, out), w2⟩
        | (.error _, w2) => ⟨1, some (processedClips, out), w2⟩

/-! ## Specification-side vocabulary for the batch loop -/

/-- The outcome of the pipeline of each entry, in index order, each run in the
world the previous one left. -/
def pipelineOutcomes (ext : Collaborators) (TEMP_DIR : JSString) :
    List Entry → Nat → World → List (Except Error Clip)
  | [], _, _ => []
  | entry :: entries, i, w =>
    (processVideo ext TEMP_DIR entry i w).1 ::
      pipelineOutcomes ext TEMP_DIR entries (i + 1) (processVideo ext TEMP_DIR entry i w).2

/-- The descriptor of a pipeline that succeeded. -/
def succeeded : Except Error Clip → Option Clip
  | .ok clip => some clip
  | .error _ => none

/-- The calls of `processVideo` recorded in a trace, with index and entry. -/
def attempts (trace : List Event) : List (Nat × Entry) :=
  trace.filterMap (fun ev => match ev with
    | .processVideo i entry => some (i, entry)
    | _ => none)

/-! ## Specification-side vocabulary for the input file -/

/-- The pieces, joined with the separator between two consecutive pieces. -/
def joinWith (sep : Char) : List JSString → JSString
  | [] => []
  | [x] => x
  | x :: y :: rest => x ++ sep :: joinWith sep (y :: rest)

/-- White space that does not end a line. -/
def isPadding (ws : JSString) : Bool :=
  ws.all (fun c => isJSWhiteSpace c && c != '\n')

/-- A field: a non-empty string without white space. -/
def isField (f : JSString) : Bool :=
  !f.isEmpty && f.all (fun c => !isJSWhiteSpace c)

/-- A line of an input file whose fields are separated by single spaces: a
blank line, or fields with optional white space around them. -/
inductive Line where
  | blank (ws : JSString)
  | record (pre : JSString) (fields : List JSString) (post : JSString)

/-- The text of a line. -/
def Line.text : Line → JSString
  | .blank ws => ws
  | .record pre fields post => pre ++ joinWith ' ' fields ++ post

/-- The line is what its constructor says. -/
def Line.wellFormed : Line → Bool
  | .blank ws => isPadding ws
  | .record pre fields post =>
    isPadding pre && isPadding post && !fields.isEmpty && fields.all isField

/-- The entry a line stands for: its first three fields, when it has three. -/
def Line.entry : Line → Option Entry
  | .record _ (url :: start :: e :: _) _ => some ⟨url, start, e⟩
  | _ => none

/-- The white-space-separated fields of a line, as the specification counts
them; `cur` holds, reversed, the field being read. -/
def fieldsAux : JSString → JSString → List JSString
  | [], cur => if cur.isEmpty then [] else [cur.reverse]
  | c :: cs, cur =>
    if isJSWhiteSpace c then
      if cur.isEmpty then fieldsAux cs [] else cur.reverse :: fieldsAux cs []
    else fieldsAux cs (c :: cur)

/-- The white-space-separated fields of a line. -/
def whitespaceFields (line : JSString) : List JSString :=
  fieldsAux line []

/-! ## Specification-side vocabulary for time tokens -/

/-- A decimal digit string: one digit or more. -/
def isDigits (s : JSString) : Bool :=
  !s.isEmpty && s.all (isDigitIn 10)

/-- The non-negative integer a decimal digit string writes. -/
def decimal (s : JSString) : Nat :=
  digitsValue 10 s

/-! ## Specification-side vocabulary for video identifiers -/

/-- A character of a video identifier: an ASCII letter, a digit, `-` or `_`. -/
def isIdChar (c : Char) : Bool :=
  let n := c.toNat
  (48 ≤ n && n ≤ 57) || (65 ≤ n && n ≤ 90) || (97 ≤ n && n ≤ 122) || n == 45 || n == 95

/-- The matcher of a pattern that reads exactly one character, which has to
satisfy `p`. -/
def charStep (p : Char → Bool) (s : MatchState) (k : MatchState → Option MatchState) :
    Option MatchState :=
  match s.rest with
  | c :: r => if p c then k ⟨r, s.cap⟩ else none
  | [] => none

/-! ## Sample data -/

/-- Tools that always complete and leave the file system as it is. -/
def sampleTools : Collaborators where
  getInfo := fun _ _ => .ok "A title!".toList
  download := fun w _ _ => (none, w.fs)
  trim := fun w _ _ _ _ => (none, w.fs)
  merge := fun w _ _ _ => (none, w.fs)

/-- Tools that always complete and write their output file: the download
writes one byte, and each trim writes the number of calls made so far, so that
two trim calls write different clips. -/
def writingTools : Collaborators where
  getInfo := fun _ _ => .ok "A title!".toList
  download := fun w _ file => (none, w.fs.write file [0])
  trim := fun w _ _ _ output => (none, w.fs.write output [UInt8.ofNat w.trace.length])
  merge := fun w _ _ _ => (none, w.fs)

/-- A temporary directory, in the working directory `/work`. -/
def sampleDir : JSString := "/work/temp_audio_files".toList

/-- The resolution of paths with the working directory `/work` and no links:
an absolute path is canonical, a relative one is taken from `/work`. -/
def sampleResolve (path : JSString) : JSString :=
  match path with
  | '/' :: _ => path
  | _ => "/work/".toList ++ path

/-- A world with the empty temporary directory and no call made yet. -/
def sampleWorld : World := ⟨⟨sampleResolve, fun _ => none, [], [sampleDir]⟩, []⟩

/-- A world where one clip has been extracted. -/
def clipWorld : World :=
  ⟨⟨sampleResolve, fun _ => none,
    [("/work/temp_audio_files/dQw4w9WgXcQ_clip.mp3".toList, [73, 68, 51])], [sampleDir]⟩, []⟩

/-- The clip of `clipWorld`. -/
def sampleClip : Clip :=
  ⟨"/work/temp_audio_files/dQw4w9WgXcQ_clip.mp3".toList, "A title".toList, "0:00".toList, "0:10".toList⟩

/-- Three entries, the second of which has no video identifier. -/
def sampleEntries : List Entry :=
  [⟨"https://youtu.be/dQw4w9WgXcQ".toList, "0:00".toList, "0:10".toList⟩,
   ⟨"https://example.com/video".toList, "0:00".toList, "0:10".toList⟩,
   ⟨"https://www.youtube.com/watch?v=9bZkp7q19f0".toList, "1:00".toList, "1:30".toList⟩]

/-- An input file that asks for two clips of one video. -/
def sameVideoFile : JSString :=
  "https://youtu.be/dQw4w9WgXcQ 0:00 0:10\nhttps://youtu.be/dQw4w9WgXcQ 0:20 0:30".toList

/-! # Theorems -/

/-! ## The output file name (C7) -/

theorem main_eq_of_clips (ext : Collaborators) (dir : JSString) (options : Options)
    (content : JSString) (w : World)
    (h : (processAll ext dir (parseInput content) 0 [] w).1 ≠ []) :
    (main ext dir options content w).mergeCall =
      some ((processAll ext dir (parseInput content) 0 [] w).1,
        outputFilename options.output options.format) ∧
    (main ext dir options content w).world =
      (mergeAudioFiles ext dir options.bitrate (processAll ext dir (parseInput content) 0 [] w).1
        (outputFilename options.output options.format)
        (processAll ext dir (parseInput content) 0 [] w).2).2 := by
  have hentries : ¬ (parseInput content).length = 0 := by
    intro h0
    rw [List.length_eq_zero] at h0
    rw [h0] at h
    exact h rfl
  have hclips : ¬ (processAll ext dir (parseInput content) 0 [] w).1.length = 0 := by
    rw [List.length_eq_zero]
    exact h
  unfold main
  simp only [if_neg hentries, if_neg hclips]
  split <;> exact ⟨rfl, by simp_all⟩

theorem main_eq_of_no_clips (ext : Collaborators) (dir : JSString) (options : Options)
    (content : JSString) (w : World)
    (h : (processAll ext dir (parseInput content) 0 [] w).1 = []) :
    (main ext dir options content w).mergeCall = none := by
  unfold main
  simp only []
  split
  · rfl
  · rw [h]
    rfl

/-- C7: the output file name is `output` itself when `output` ends with
`"." ++ format` and `output ++ "." ++ format` otherwise, so that it ends with
`"." ++ format` in both cases.  Whenever at least one clip was processed,
`main` calls `mergeAudioFiles` with the processed clips and this file name, and
ends in the world that call leaves; when no clip was processed it makes no
call. -/
theorem main_outputFilename (ext : Collaborators) (dir : JSString) (options : Options)
    (content : JSString) (w : World) :
    outputFilename options.output options.format =
      (if ('.' :: options.format) <:+ options.output then options.output
        else options.output ++ ('.' :: options.format)) ∧
    ('.' :: options.format) <:+ outputFilename options.output options.format ∧
    ((processAll ext dir (parseInput content) 0 [] w).1 = [] →
      (main ext dir options content w).mergeCall = none) ∧
    ((processAll ext dir (parseInput content) 0 [] w).1 ≠ [] →
      (main ext dir options content w).mergeCall =
        some ((processAll ext dir (parseInput content) 0 [] w).1,
          outputFilename options.output options.format) ∧
      (main ext dir options content w).world =
        (mergeAudioFiles ext dir options.bitrate
          (processAll ext dir (parseInput content) 0 [] w).1
          (outputFilename options.output options.format)
          (processAll ext dir (parseInput content) 0 [] w).2).2) := by
  refine ⟨rfl, ?_, main_eq_of_no_clips ext dir options content w,
    main_eq_of_clips ext dir options content w⟩
  unfold outputFilename
  split
  · assumption
  · exact List.suffix_append _ _

theorem main_outputFilename_witness :
    (main sampleTools sampleDir ⟨"merged_audio.mp3".toList, "mp3".toList, "128k".toList⟩
      sameVideoFile sampleWorld).mergeCall =
      some ([⟨"/work/temp_audio_files/dQw4w9WgXcQ_clip.mp3".toList, "A title".toList,
              "0:00".toList, "0:10".toList⟩,
             ⟨"/work/temp_audio_files/dQw4w9WgXcQ_clip.mp3".toList, "A title".toList,
              "0:20".toList, "0:30".toList⟩], "merged_audio.mp3".toList) ∧
    (main sampleTools sampleDir ⟨"mix".toList, "wav".toList, "128k".toList⟩
      "https://youtu.be/dQw4w9WgXcQ 0:00 0:10".toList clipWorld).mergeCall =
      some ([⟨"/work/temp_audio_files/dQw4w9WgXcQ_clip.mp3".toList, "A title".toList,
              "0:00".toList, "0:10".toList⟩], "mix.wav".toList) ∧
    (main sampleTools sampleDir ⟨"mix".toList, "wav".toList, "128k".toList⟩
      "https://youtu.be/dQw4w9WgXcQ 0:00 0:10".toList clipWorld).world.fs.read "mix.wav".toList =
      some [73, 68, 51] ∧
    (main sampleTools sampleDir ⟨"merged_audio.mp3".toList, "mp3".toList, "128k".toList⟩
      "badline\n".toList sampleWorld).mergeCall = none :=
  ⟨((main_outputFilename sampleTools sampleDir
        ⟨"merged_audio.mp3".toList, "mp3".toList, "128k".toList⟩ sameVideoFile sampleWorld).2.2.2
      (by decide)).1.trans (by decide),
   ((main_outputFilename sampleTools sampleDir ⟨"mix".toList, "wav".toList, "128k".toList⟩
        "https://youtu.be/dQw4w9WgXcQ 0:00 0:10".toList clipWorld).2.2.2
      (by decide)).1.trans (by decide),
   by
    rw [((main_outputFilename sampleTools sampleDir ⟨"mix".toList, "wav".toList, "128k".toList⟩
        "https://youtu.be/dQw4w9WgXcQ 0:00 0:10".toList clipWorld).2.2.2 (by decide)).2]
    decide,
   (main_outputFilename sampleTools sampleDir
        ⟨"merged_audio.mp3".toList, "mp3".toList, "128k".toList⟩ "badline\n".toList
        sampleWorld).2.2.1 (by decide)⟩

/-! ## The batch loop (C4) -/

theorem attempts_append (t u : List Event) : attempts (t ++ u) = attempts t ++ attempts u := by
  simp [attempts, List.filterMap_append]

theorem processVideo_attempts (ext : Collaborators) (dir : JSString) (e : Entry) (i : Nat)
    (w : World) :
    attempts (processVideo ext dir e i w).2.trace = attempts w.trace ++ [(i, e)] := by
  unfold processVideo
  simp only []
  repeat' split
  all_goals simp [World.log, attempts_append, attempts]

theorem processVideo_unresolved (ext : Collaborators) (dir : JSString) (e : Entry) (i : Nat)
    (w : World) (h : getVideoId e.url = none) :
    (processVideo ext dir e i w).1 = .error ⟨"Could not extract video ID from URL".toList⟩ := by
  unfold processVideo
  simp only [h]

theorem processAll_eq (ext : Collaborators) (dir : JSString) (entries : List Entry) :
    ∀ (i : Nat) (acc : List Clip) (w : World),
      (processAll ext dir entries i acc w).1 =
        acc ++ (pipelineOutcomes ext dir entries i w).filterMap succeeded ∧
      attempts (processAll ext dir entries i acc w).2.trace =
        attempts w.trace ++ entries.enumFrom i := by
  induction entries with
  | nil => intro i acc w; simp [processAll, pipelineOutcomes]
  | cons e es ih =>
    intro i acc w
    have hA := processVideo_attempts ext dir e i w
    unfold processAll pipelineOutcomes
    rcases hpv : processVideo ext dir e i w with ⟨r, w1⟩
    rw [hpv] at hA
    cases r with
    | error err =>
      simp only []
      obtain ⟨h1, h2⟩ := ih (i + 1) acc w1
      refine ⟨?_, ?_⟩
      · rw [h1]; simp [succeeded]
      · rw [h2, hA]; simp [List.enumFrom]
    | ok clip =>
      simp only []
      obtain ⟨h1, h2⟩ := ih (i + 1) (acc ++ [clip]) w1
      refine ⟨?_, ?_⟩
      · rw [h1]; simp [succeeded]
      · rw [h2, hA]; simp [List.enumFrom]

theorem pipelineOutcomes_length (ext : Collaborators) (dir : JSString) (entries : List Entry) :
    ∀ (i : Nat) (w : World), (pipelineOutcomes ext dir entries i w).length = entries.length := by
  induction entries with
  | nil => intro i w; rfl
  | cons e es ih => intro i w; simp [pipelineOutcomes, ih]

theorem pipelineOutcomes_unresolved (ext : Collaborators) (dir : JSString) (entries : List Entry) :
    ∀ (i : Nat) (w : World) (j : Nat) (e : Entry), entries[j]? = some e → getVideoId e.url = none →
      (pipelineOutcomes ext dir entries i w)[j]? =
        some (.error ⟨"Could not extract video ID from URL".toList⟩) := by
  induction entries with
  | nil => intro i w j e h; simp at h
  | cons e0 es ih =>
    intro i w j e h hu
    cases j with
    | zero =>
      simp only [List.getElem?_cons_zero, Option.some.injEq] at h
      subst h
      simp [pipelineOutcomes, processVideo_unresolved ext dir e0 i w hu]
    | succ j =>
      simp only [List.getElem?_cons_succ] at h
      simp only [pipelineOutcomes, List.getElem?_cons_succ]
      exact ih _ _ j e h hu

/-- C4: the loop of `main` calls `processVideo` once for every entry, in index
order, whatever the outcomes are; the clips it accumulates are exactly the
descriptors of the pipelines that succeeded, in the order of the entries; an
entry whose `getVideoId` is null fails and adds nothing. -/
theorem processAll_spec (ext : Collaborators) (dir : JSString) (entries : List Entry) (w : World) :
    (pipelineOutcomes ext dir entries 0 w).length = entries.length ∧
    (processAll ext dir entries 0 [] w).1 =
      (pipelineOutcomes ext dir entries 0 w).filterMap succeeded ∧
    attempts (processAll ext dir entries 0 [] w).2.trace = attempts w.trace ++ entries.enum ∧
    ∀ (j : Nat) (e : Entry), entries[j]? = some e → getVideoId e.url = none →
      (pipelineOutcomes ext dir entries 0 w)[j]? =
        some (.error ⟨"Could not extract video ID from URL".toList⟩) := by
  obtain ⟨h1, h2⟩ := processAll_eq ext dir entries 0 [] w
  refine ⟨pipelineOutcomes_length ext dir entries 0 w, ?_, ?_, ?_⟩
  · simpa using h1
  · simpa [List.enum] using h2
  · exact pipelineOutcomes_unresolved ext dir entries 0 w

theorem processAll_spec_witness :
    getVideoId "https://example.com/video".toList = none ∧
    (pipelineOutcomes sampleTools sampleDir sampleEntries 0 sampleWorld)[1]? =
      some (.error ⟨"Could not extract video ID from URL".toList⟩) ∧
    (processAll sampleTools sampleDir sampleEntries 0 [] sampleWorld).1 =
      [⟨"/work/temp_audio_files/dQw4w9WgXcQ_clip.mp3".toList, "A title".toList,
          "0:00".toList, "0:10".toList⟩,
       ⟨"/work/temp_audio_files/9bZkp7q19f0_clip.mp3".toList, "A title".toList,
          "1:00".toList, "1:30".toList⟩] :=
  ⟨by decide,
   (processAll_spec sampleTools sampleDir sampleEntries sampleWorld).2.2.2 1
      ⟨"https://example.com/video".toList, "0:00".toList, "0:10".toList⟩ (by decide) (by decide),
   (processAll_spec sampleTools sampleDir sampleEntries sampleWorld).2.1.trans (by decide)⟩


/-! ## The single-clip path of `mergeAudioFiles` (C6) -/

theorem lookup_filter_keep (files : List (JSString × Bytes)) (P : JSString × Bytes → Bool)
    (q : JSString) (hq : ∀ v, P (q, v) = true) :
    (files.filter P).lookup q = files.lookup q := by
  induction files with
  | nil => rfl
  | cons f fs ih =>
    obtain ⟨k, v⟩ := f
    by_cases hqk : q = k
    · subst hqk
      rw [List.filter_cons, if_pos (hq v)]
      simp [List.lookup_cons]
    · have hb : (q == k) = false := by simpa using hqk
      rw [List.filter_cons]
      split
      · rw [List.lookup_cons, List.lookup_cons, hb]; exact ih
      · rw [List.lookup_cons, hb]; exact ih

theorem lookup_filter_drop (files : List (JSString × Bytes)) (P : JSString × Bytes → Bool)
    (q : JSString) (hq : ∀ v, P (q, v) = false) :
    (files.filter P).lookup q = none := by
  induction files with
  | nil => rfl
  | cons f fs ih =>
    obtain ⟨k, v⟩ := f
    rw [List.filter_cons]
    split
    · rename_i hP
      have hqk : q ≠ k := fun h => by rw [← h, hq v] at hP; cases hP
      have hb : (q == k) = false := by simpa using hqk
      rw [List.lookup_cons, hb]; exact ih
    · exact ih

theorem lookup_filter_ne (files : List (JSString × Bytes)) (p q : JSString) (h : q ≠ p) :
    (files.filter (fun f => f.1 ≠ p)).lookup q = files.lookup q :=
  lookup_filter_keep files _ q (fun v => by simpa using h)

theorem lookup_filter_self (files : List (JSString × Bytes)) (p : JSString) :
    (files.filter (fun f => f.1 ≠ p)).lookup p = none :=
  lookup_filter_drop files _ p (fun v => by simp)

theorem FileSystem.read_write_self (fs : FileSystem) (p : JSString) (b : Bytes) :
    (fs.write p b).read p = some b := by
  simp [FileSystem.read, FileSystem.write, List.lookup_cons]

theorem FileSystem.read_write_ne (fs : FileSystem) (p q : JSString) (b : Bytes)
    (h : fs.resolve q ≠ fs.resolve p) : (fs.write p b).read q = fs.read q := by
  have hb : (fs.resolve q == fs.resolve p) = false := by simpa using h
  show List.lookup (fs.resolve q) ((fs.resolve p, b) :: _) = _
  rw [List.lookup_cons, hb]
  exact lookup_filter_ne _ _ _ h

theorem FileSystem.read_remove_self (fs : FileSystem) (p : JSString) :
    (fs.remove p).read p = none :=
  lookup_filter_self _ _

theorem FileSystem.read_remove_ne (fs : FileSystem) (p q : JSString)
    (h : fs.resolve q ≠ fs.resolve p) : (fs.remove p).read q = fs.read q :=
  lookup_filter_ne _ _ _ h

theorem FileSystem.rmdirSync_files (fs fs1 : FileSystem) (dir : JSString)
    (h : fs.rmdirSync dir = .ok fs1) : fs1.files = fs.files ∧ fs1.resolve = fs.resolve := by
  unfold FileSystem.rmdirSync at h
  split at h
  · cases h; exact ⟨rfl, rfl⟩
  · cases h
  · cases h

theorem removeIfEmpty_files (fs fs1 : FileSystem) (dir : JSString)
    (h : removeIfEmpty fs dir = .ok fs1) : fs1.files = fs.files ∧ fs1.resolve = fs.resolve := by
  unfold removeIfEmpty at h
  split at h
  · cases h
  · split at h
    · exact FileSystem.rmdirSync_files _ _ _ h
    · cases h; exact ⟨rfl, rfl⟩

theorem FileSystem.read_congr (fs fs1 : FileSystem) (h : fs1.files = fs.files)
    (hr : fs1.resolve = fs.resolve) (p : JSString) : fs1.read p = fs.read p := by
  unfold FileSystem.read
  rw [h, hr]

theorem mergeAudioFiles_single_trace (ext : Collaborators) (dir bitrate : JSString) (c : Clip)
    (out : JSString) (w : World) :
    (mergeAudioFiles ext dir bitrate [c] out w).2.trace = w.trace := by
  unfold mergeAudioFiles
  simp only []
  repeat' split
  all_goals rfl

/-- C6 (amended): for a single clip descriptor `c` and an output path,
`mergeAudioFiles` makes no call of the transcoder.  When the file of `c`
exists, the output path does not name the same file as `c.file` (once the file
system has resolved both paths) and the file system refuses neither the write
at the output path nor the removal of `c.file`, then afterwards the file at the
output path has exactly the bytes `c.file` had before the call and `c.file` no
longer exists. -/
theorem mergeAudioFiles_single (ext : Collaborators) (dir bitrate : JSString) (c : Clip)
    (out : JSString) (w : World) :
    (mergeAudioFiles ext dir bitrate [c] out w).2.trace = w.trace ∧
    ∀ bytes : Bytes, w.fs.read c.file = some bytes →
      w.fs.resolve out ≠ w.fs.resolve c.file →
      w.fs.refusal (w.fs.resolve out) = none →
      w.fs.refusal (w.fs.resolve c.file) = none →
      (mergeAudioFiles ext dir bitrate [c] out w).2.fs.read out = some bytes ∧
      (mergeAudioFiles ext dir bitrate [c] out w).2.fs.read c.file = none := by
  refine ⟨mergeAudioFiles_single_trace ext dir bitrate c out w, ?_⟩
  intro bytes hfile hout hrout hrfile
  have hcopy : w.fs.copyFileSync c.file out = .ok (w.fs.write out bytes) := by
    simp [FileSystem.copyFileSync, hfile, hrout]
  have hread : (w.fs.write out bytes).read c.file = some bytes := by
    rw [FileSystem.read_write_ne _ _ _ _ (Ne.symm hout)]; exact hfile
  have hunlink : (w.fs.write out bytes).unlinkSync c.file =
      .ok ((w.fs.write out bytes).remove c.file) := by
    unfold FileSystem.unlinkSync
    rw [hread]
    show (match w.fs.refusal (w.fs.resolve c.file) with
      | some e => Except.error e
      | none => Except.ok ((w.fs.write out bytes).remove c.file)) = _
    rw [hrfile]
  have hfinal : ∀ fs3 : FileSystem,
      fs3.files = ((w.fs.write out bytes).remove c.file).files →
      fs3.resolve = ((w.fs.write out bytes).remove c.file).resolve →
      fs3.read out = some bytes ∧ fs3.read c.file = none := by
    intro fs3 h3 hr3
    rw [FileSystem.read_congr _ _ h3 hr3, FileSystem.read_congr _ _ h3 hr3]
    refine ⟨?_, FileSystem.read_remove_self _ _⟩
    rw [FileSystem.read_remove_ne (w.fs.write out bytes) c.file out hout]
    exact FileSystem.read_write_self _ _ _
  unfold mergeAudioFiles
  simp only [hcopy, hunlink]
  split
  · exact hfinal _ rfl rfl
  · rename_i fs3 h3
    exact hfinal _ (removeIfEmpty_files _ _ _ h3).1 (removeIfEmpty_files _ _ _ h3).2

theorem mergeAudioFiles_single_witness :
    clipWorld.fs.read sampleClip.file = some [73, 68, 51] ∧
    clipWorld.fs.resolve "out.mp3".toList ≠ clipWorld.fs.resolve sampleClip.file ∧
    (mergeAudioFiles sampleTools sampleDir "128k".toList [sampleClip] "out.mp3".toList
      clipWorld).2.fs.read "out.mp3".toList = some [73, 68, 51] ∧
    (mergeAudioFiles sampleTools sampleDir "128k".toList [sampleClip] "out.mp3".toList
      clipWorld).2.fs.read sampleClip.file = none :=
  ⟨by decide, by decide,
   (mergeAudioFiles_single sampleTools sampleDir "128k".toList sampleClip "out.mp3".toList
     clipWorld).2 [73, 68, 51] (by decide) (by decide) rfl rfl⟩

/-- C6 as stated fails when the output path names the file of the clip: with
the working directory `/work`, the relative path
`temp_audio_files/dQw4w9WgXcQ_clip.mp3` and the absolute path of the clip are
one file, the copy leaves it as it is and the unlink then deletes it, so that
afterwards no file is left at the output path. -/
theorem mergeAudioFiles_single_same_file :
    "temp_audio_files/dQw4w9WgXcQ_clip.mp3".toList ≠ sampleClip.file ∧
    clipWorld.fs.read sampleClip.file = some [73, 68, 51] ∧
    (mergeAudioFiles sampleTools sampleDir "128k".toList [sampleClip]
      "temp_audio_files/dQw4w9WgXcQ_clip.mp3".toList clipWorld).2.fs.read
        "temp_audio_files/dQw4w9WgXcQ_clip.mp3".toList = none ∧
    ¬ ∀ (ext : Collaborators) (dir bitrate : JSString) (c : Clip) (out : JSString) (w : World)
        (bytes : Bytes), w.fs.read c.file = some bytes →
        (mergeAudioFiles ext dir bitrate [c] out w).2.fs.read out = some bytes ∧
        (mergeAudioFiles ext dir bitrate [c] out w).2.fs.read c.file = none := by
  refine ⟨by decide, by decide, by decide, fun h => ?_⟩
  have := (h sampleTools sampleDir "128k".toList sampleClip
    "temp_audio_files/dQw4w9WgXcQ_clip.mp3".toList clipWorld [73, 68, 51] (by decide)).1
  revert this
  decide

/-! ## The names of the artifacts (C5) -/

/-- C5 fails on an input file that asks for two clips of one video: both
entries are given the clip file of the video.  The clip written for the first
entry (the bytes `[4]`) is replaced by the clip of the second entry (the bytes
`[8]`), the two descriptors accumulated refer to that one file, and `main`
hands the same file twice to `mergeAudioFiles`. -/
theorem main_same_video_overwrites :
    parseInput sameVideoFile =
      [⟨"https://youtu.be/dQw4w9WgXcQ".toList, "0:00".toList, "0:10".toList⟩,
       ⟨"https://youtu.be/dQw4w9WgXcQ".toList, "0:20".toList, "0:30".toList⟩] ∧
    (processVideo writingTools sampleDir
        ⟨"https://youtu.be/dQw4w9WgXcQ".toList, "0:00".toList, "0:10".toList⟩ 0
        sampleWorld).2.fs.read "/work/temp_audio_files/dQw4w9WgXcQ_clip.mp3".toList =
      some [4] ∧
    (processAll writingTools sampleDir (parseInput sameVideoFile) 0 [] sampleWorld).2.fs.read
        "/work/temp_audio_files/dQw4w9WgXcQ_clip.mp3".toList = some [8] ∧
    (processAll writingTools sampleDir (parseInput sameVideoFile) 0 [] sampleWorld).1 =
      [⟨"/work/temp_audio_files/dQw4w9WgXcQ_clip.mp3".toList, "A title".toList,
          "0:00".toList, "0:10".toList⟩,
       ⟨"/work/temp_audio_files/dQw4w9WgXcQ_clip.mp3".toList, "A title".toList,
          "0:20".toList, "0:30".toList⟩] ∧
    Event.merge ["/work/temp_audio_files/dQw4w9WgXcQ_clip.mp3".toList,
        "/work/temp_audio_files/dQw4w9WgXcQ_clip.mp3".toList] "merged_audio.mp3".toList
        "128k".toList ∈
      (main writingTools sampleDir ⟨"merged_audio.mp3".toList, "mp3".toList, "128k".toList⟩
        sameVideoFile sampleWorld).world.trace := by
  refine ⟨by decide, by decide, by decide, by decide, ?_⟩
  rw [((main_eq_of_clips writingTools sampleDir
    ⟨"merged_audio.mp3".toList, "mp3".toList, "128k".toList⟩ sameVideoFile sampleWorld
    (by decide)).2)]
  have hclips : (processAll writingTools sampleDir (parseInput sameVideoFile) 0 []
      sampleWorld).1 =
      [⟨"/work/temp_audio_files/dQw4w9WgXcQ_clip.mp3".toList, "A title".toList,
          "0:00".toList, "0:10".toList⟩,
       ⟨"/work/temp_audio_files/dQw4w9WgXcQ_clip.mp3".toList, "A title".toList,
          "0:20".toList, "0:30".toList⟩] := by decide
  rw [hclips]
  simp [mergeAudioFiles, World.log, writingTools, outputFilename]
  decide

/-! ## `split` and `trim` -/

theorem splitAux_ne_nil (sep : Char) (s cur : JSString) : splitAux sep s cur ≠ [] := by
  induction s generalizing cur with
  | nil => simp [splitAux]
  | cons c cs ih =>
    unfold splitAux
    split
    · simp
    · exact ih _

theorem joinWith_cons (sep : Char) (x : JSString) (xs : List JSString) (h : xs ≠ []) :
    joinWith sep (x :: xs) = x ++ sep :: joinWith sep xs := by
  cases xs with
  | nil => exact absurd rfl h
  | cons y rest => rfl

theorem joinWith_splitAux (sep : Char) (s cur : JSString) :
    joinWith sep (splitAux sep s cur) = cur.reverse ++ s := by
  induction s generalizing cur with
  | nil => simp [splitAux, joinWith]
  | cons c cs ih =>
    unfold splitAux
    split
    · rename_i h
      rw [joinWith_cons _ _ _ (splitAux_ne_nil _ _ _), ih, h]
      simp
    · rw [ih]; simp

theorem splitAux_length (sep : Char) (s cur : JSString) :
    (splitAux sep s cur).length = s.count sep + 1 := by
  induction s generalizing cur with
  | nil => simp [splitAux]
  | cons c cs ih =>
    unfold splitAux
    split
    · rename_i h
      subst h
      simp [ih]
    · rename_i h
      rw [ih, List.count_cons_of_ne (fun h1 => h h1.symm)]

theorem splitAux_not_mem (sep : Char) (s cur : JSString) (hcur : sep ∉ cur) :
    ∀ p ∈ splitAux sep s cur, sep ∉ p := by
  induction s generalizing cur with
  | nil =>
    intro p hp
    simp only [splitAux, List.mem_singleton] at hp
    subst hp
    simpa using hcur
  | cons c cs ih =>
    intro p hp
    unfold splitAux at hp
    split at hp
    · rcases List.mem_cons.1 hp with h | h
      · subst h; simpa using hcur
      · exact ih [] (by simp) p h
    · rename_i hc
      refine ih (c :: cur) ?_ p hp
      intro hmem
      rcases List.mem_cons.1 hmem with h | h
      · exact hc h.symm
      · exact hcur h

theorem splitAux_append (sep : Char) (x rest cur : JSString) (hx : sep ∉ x) :
    splitAux sep (x ++ rest) cur = splitAux sep rest (x.reverse ++ cur) := by
  induction x generalizing cur with
  | nil => rfl
  | cons c cs ih =>
    have hc : c ≠ sep := fun h => hx (by simp [h])
    have hcs : sep ∉ cs := fun h => hx (List.mem_cons_of_mem _ h)
    rw [List.cons_append, splitAux, if_neg hc, ih _ hcs]
    simp

theorem split_joinWith (sep : Char) (xs : List JSString) (hne : xs ≠ [])
    (h : ∀ x ∈ xs, sep ∉ x) : split sep (joinWith sep xs) = xs := by
  unfold split
  induction xs with
  | nil => exact absurd rfl hne
  | cons x rest ih =>
    have hx : sep ∉ x := h x (by simp)
    cases rest with
    | nil =>
      have := splitAux_append sep x [] [] hx
      simp only [List.append_nil] at this
      simp [joinWith, this, splitAux]
    | cons y rest =>
      rw [joinWith_cons _ _ _ (by simp), splitAux_append _ _ _ _ hx]
      simp only [splitAux, if_true, List.append_nil, List.reverse_reverse]
      rw [ih (by simp) (fun z hz => h z (List.mem_cons_of_mem _ hz))]

theorem trimStart_append_of_all (pre s : JSString) (h : ∀ c ∈ pre, isJSWhiteSpace c = true) :
    trimStart (pre ++ s) = trimStart s := by
  induction pre with
  | nil => rfl
  | cons c cs ih =>
    have hc : isJSWhiteSpace c = true := h c (by simp)
    simp only [List.cons_append, trimStart, hc, if_true]
    exact ih (fun d hd => h d (List.mem_cons_of_mem _ hd))

theorem trimStart_cons_of_not (c : Char) (s : JSString) (h : isJSWhiteSpace c = false) :
    trimStart (c :: s) = c :: s := by
  simp [trimStart, h]

theorem trim_of_all (ws : JSString) (h : ∀ c ∈ ws, isJSWhiteSpace c = true) : trim ws = [] := by
  have h1 : trimStart ws = [] := by
    have := trimStart_append_of_all ws [] h
    simpa [trimStart] using this
  simp [trim, h1, trimStart]

theorem trim_padded (pre post init : JSString) (c d : Char) (body : JSString)
    (hpre : ∀ x ∈ pre, isJSWhiteSpace x = true) (hpost : ∀ x ∈ post, isJSWhiteSpace x = true)
    (hc : isJSWhiteSpace c = false) (hd : isJSWhiteSpace d = false)
    (hhead : ∃ tl, body = c :: tl) (hlast : body = init ++ [d]) :
    trim (pre ++ body ++ post) = body := by
  obtain ⟨tl, htl⟩ := hhead
  unfold trim
  rw [List.append_assoc, trimStart_append_of_all _ _ hpre]
  have h1 : trimStart (body ++ post) = body ++ post := by
    rw [htl]; exact trimStart_cons_of_not _ _ hc
  rw [h1, List.reverse_append,
    trimStart_append_of_all _ _ (fun x hx => hpost x (List.mem_reverse.1 hx))]
  have h2 : body.reverse = d :: init.reverse := by rw [hlast]; simp
  rw [h2, trimStart_cons_of_not _ _ hd, ← h2, List.reverse_reverse]

/-! ## `parseInput` on files with single-space separators (C2) -/

theorem isPadding_mem (ws : JSString) (h : isPadding ws = true) :
    ∀ c ∈ ws, isJSWhiteSpace c = true ∧ c ≠ '\n' := by
  intro c hc
  have := (List.all_eq_true.1 h) c hc
  simpa using this

theorem isField_mem (f : JSString) (h : isField f = true) :
    f ≠ [] ∧ ∀ c ∈ f, isJSWhiteSpace c = false := by
  unfold isField at h
  simp only [Bool.and_eq_true, Bool.not_eq_true', List.all_eq_true] at h
  refine ⟨?_, fun c hc => by simpa using h.2 c hc⟩
  intro hf
  rw [hf] at h
  simp at h

theorem isField_not_mem (f : JSString) (h : isField f = true) (c : Char)
    (hc : isJSWhiteSpace c = true) : c ∉ f := by
  intro hmem
  have := (isField_mem f h).2 c hmem
  rw [hc] at this
  cases this

theorem joinWith_fields_head (fs : List JSString) (hne : fs ≠ [])
    (h : ∀ f ∈ fs, isField f = true) :
    ∃ c tl, joinWith ' ' fs = c :: tl ∧ isJSWhiteSpace c = false := by
  cases fs with
  | nil => exact absurd rfl hne
  | cons f rest =>
    obtain ⟨hf, hall⟩ := isField_mem f (h f (by simp))
    cases f with
    | nil => exact absurd rfl hf
    | cons c tl =>
      cases rest with
      | nil => exact ⟨c, tl, rfl, hall c (by simp)⟩
      | cons g rest => exact ⟨c, _, rfl, hall c (by simp)⟩

theorem joinWith_fields_last (fs : List JSString) (hne : fs ≠ [])
    (h : ∀ f ∈ fs, isField f = true) :
    ∃ init d, joinWith ' ' fs = init ++ [d] ∧ isJSWhiteSpace d = false := by
  induction fs with
  | nil => exact absurd rfl hne
  | cons f rest ih =>
    cases rest with
    | nil =>
      obtain ⟨hf, hall⟩ := isField_mem f (h f (by simp))
      refine ⟨f.dropLast, f.getLast hf, ?_, hall _ (List.getLast_mem hf)⟩
      simp [joinWith, List.dropLast_append_getLast]
    | cons g rest =>
      obtain ⟨init, d, hj, hd⟩ := ih (by simp) (fun x hx => h x (List.mem_cons_of_mem _ hx))
      refine ⟨f ++ ' ' :: init, d, ?_, hd⟩
      rw [joinWith_cons _ _ _ (by simp), hj]
      simp

theorem joinWith_fields_not_mem (fs : List JSString) (h : ∀ f ∈ fs, isField f = true) :
    '\n' ∉ joinWith ' ' fs := by
  induction fs with
  | nil => simp [joinWith]
  | cons f rest ih =>
    have hf : '\n' ∉ f := isField_not_mem f (h f (by simp)) '\n' (by decide)
    cases rest with
    | nil => simpa [joinWith] using hf
    | cons g rest =>
      rw [joinWith_cons _ _ _ (by simp)]
      have := ih (fun x hx => h x (List.mem_cons_of_mem _ hx))
      simp only [List.mem_append, List.mem_cons, not_or]
      exact ⟨hf, by decide, this⟩

theorem Line.text_not_mem (l : Line) (h : l.wellFormed = true) : '\n' ∉ l.text := by
  cases l with
  | blank ws =>
    intro hmem
    exact (isPadding_mem ws h '\n' hmem).2 rfl
  | record pre fields post =>
    simp only [Line.wellFormed, Bool.and_eq_true, List.all_eq_true] at h
    obtain ⟨⟨⟨hpre, hpost⟩, _⟩, hf⟩ := h
    simp only [Line.text, List.mem_append, not_or]
    exact ⟨⟨fun hm => (isPadding_mem pre hpre _ hm).2 rfl,
      joinWith_fields_not_mem fields hf⟩, fun hm => (isPadding_mem post hpost _ hm).2 rfl⟩

theorem Line.trim_text (l : Line) (h : l.wellFormed = true) :
    trim l.text = match l with
      | .blank _ => []
      | .record _ fields _ => joinWith ' ' fields := by
  cases l with
  | blank ws => exact trim_of_all ws (fun c hc => (isPadding_mem ws h c hc).1)
  | record pre fields post =>
    simp only [Line.wellFormed, Bool.and_eq_true, List.all_eq_true, Bool.not_eq_true',
      List.isEmpty_eq_false] at h
    obtain ⟨⟨⟨hpre, hpost⟩, hne⟩, hf⟩ := h
    have hne1 : fields ≠ [] := by
      intro h0; rw [h0] at hne; simp at hne
    obtain ⟨c, tl, hhead, hc⟩ := joinWith_fields_head fields hne1 hf
    obtain ⟨init, d, hlast, hd⟩ := joinWith_fields_last fields hne1 hf
    exact trim_padded pre post init c d _ (fun x hx => (isPadding_mem pre hpre x hx).1)
      (fun x hx => (isPadding_mem post hpost x hx).1) hc hd ⟨tl, hhead⟩ hlast

theorem Line.parse_text (l : Line) (h : l.wellFormed = true) :
    (if (!(trim l.text).isEmpty) = true then parseLine l.text else none) = l.entry := by
  have ht := Line.trim_text l h
  cases l with
  | blank ws =>
    simp only [] at ht
    simp [ht, Line.entry]
  | record pre fields post =>
    simp only [] at ht
    simp only [Line.wellFormed, Bool.and_eq_true, List.all_eq_true, Bool.not_eq_true',
      List.isEmpty_eq_false] at h
    obtain ⟨⟨⟨hpre, hpost⟩, hne⟩, hf⟩ := h
    have hne1 : fields ≠ [] := by
      intro h0; rw [h0] at hne; simp at hne
    obtain ⟨c, tl, hhead, hc⟩ := joinWith_fields_head fields hne1 hf
    have hsplit : split ' ' (joinWith ' ' fields) = fields :=
      split_joinWith ' ' fields hne1 (fun f hf1 => isField_not_mem f (hf f hf1) ' ' (by decide))
    have hnonempty : (!(trim (Line.record pre fields post).text).isEmpty) = true := by
      rw [ht, hhead]; rfl
    rw [if_pos hnonempty]
    unfold parseLine
    rw [ht, hsplit]
    match fields with
    | [] => rfl
    | [_] => rfl
    | [_, _] => rfl
    | _ :: _ :: _ :: _ => rfl

theorem filterMap_filter_eq {α β : Type} (p : α → Bool) (f : α → Option β) (xs : List α) :
    (xs.filter p).filterMap f = xs.filterMap (fun x => if p x = true then f x else none) := by
  induction xs with
  | nil => rfl
  | cons x rest ih =>
    by_cases hp : p x = true
    · simp [List.filter_cons, hp, List.filterMap_cons, ih]
    · simp [List.filter_cons, hp, List.filterMap_cons, ih]

/-- C2: in file mode, for a file whose lines are blank or made of fields
separated by single spaces (with optional white space around the line),
`parseInput` returns, in the order of the lines, one entry for each line that
has at least three fields, made of its first three fields; blank lines and
lines with fewer than three fields give no entry. -/
theorem parseInput_single_spaces (lines : List Line)
    (h : ∀ l ∈ lines, l.wellFormed = true) :
    parseInput (joinWith '\n' (lines.map Line.text)) = lines.filterMap Line.entry := by
  unfold parseInput
  rw [filterMap_filter_eq]
  cases lines with
  | nil => simp [joinWith, split, splitAux, trim, trimStart]
  | cons l rest =>
    rw [split_joinWith '\n' _ (by simp)]
    · rw [List.filterMap_map]
      apply List.filterMap_congr
      intro x hx
      exact Line.parse_text x (h x hx)
    · intro x hx
      obtain ⟨y, hy, rfl⟩ := List.mem_map.1 hx
      exact Line.text_not_mem y (h y hy)

theorem parseInput_single_spaces_witness :
    (∀ l ∈ [Line.record [] ["url1".toList, "0:00".toList, "0:10".toList] [], Line.blank [],
        Line.record [] ["url2".toList, "0:05".toList, "0:15".toList] [],
        Line.record [] ["badline".toList] [], Line.blank []], l.wellFormed = true) ∧
    parseInput "url1 0:00 0:10\n\nurl2 0:05 0:15\nbadline\n".toList =
      [⟨"url1".toList, "0:00".toList, "0:10".toList⟩,
       ⟨"url2".toList, "0:05".toList, "0:15".toList⟩] :=
  ⟨by decide,
   parseInput_single_spaces
     [Line.record [] ["url1".toList, "0:00".toList, "0:10".toList] [], Line.blank [],
      Line.record [] ["url2".toList, "0:05".toList, "0:15".toList] [],
      Line.record [] ["badline".toList] [], Line.blank []] (by decide)⟩


/-! ## `parseInput` splits at single spaces only (C8) -/

theorem parseLine_isSome_iff (line : JSString) :
    (parseLine line).isSome = true ↔ 3 ≤ (split ' ' (trim line)).length := by
  unfold parseLine
  match split ' ' (trim line) with
  | [] => simp
  | [_] => simp
  | [_, _] => simp
  | _ :: _ :: _ :: _ => simp

theorem parseLine_eq_some (line : JSString) (e : Entry) (h : parseLine line = some e) :
    ∃ more, split ' ' (trim line) = e.url :: e.start :: e.end :: more := by
  unfold parseLine at h
  match hs : split ' ' (trim line), h with
  | [], h => simp at h
  | [_], h => simp at h
  | [_, _], h => simp at h
  | u :: s :: x :: more, h =>
    simp only [Option.some.injEq] at h
    subst h
    exact ⟨more, rfl⟩

/-- C8 (amended): in file mode a line gives an entry exactly when its trimmed
text contains at least two space characters; the url, start and end of the
entry are then the pieces of the trimmed text up to the first space, between
the first two spaces and from the second space to the third one or to the end
of the text.  Runs of spaces give empty pieces and a tab separates nothing. -/
theorem parseLine_spaces (line : JSString) :
    ((parseLine line).isSome = true ↔ 2 ≤ (trim line).count ' ') ∧
    ∀ e, parseLine line = some e →
      ' ' ∉ e.url ∧ ' ' ∉ e.start ∧ ' ' ∉ e.end ∧
      ∃ rest, trim line = e.url ++ ' ' :: (e.start ++ ' ' :: (e.end ++ rest)) ∧
        (rest = [] ∨ ∃ r, rest = ' ' :: r) := by
  refine ⟨?_, ?_⟩
  · rw [parseLine_isSome_iff, split, splitAux_length]
    omega
  · intro e he
    obtain ⟨more, hs⟩ := parseLine_eq_some line e he
    have hmem := splitAux_not_mem ' ' (trim line) [] (by simp)
    have hjoin := joinWith_splitAux ' ' (trim line) []
    unfold split at hs
    rw [hs] at hmem hjoin
    simp only [List.reverse_nil, List.nil_append] at hjoin
    refine ⟨hmem _ (by simp), hmem _ (by simp), hmem _ (by simp), ?_⟩
    cases more with
    | nil =>
      refine ⟨[], ?_, Or.inl rfl⟩
      rw [← hjoin]
      simp [joinWith]
    | cons m more =>
      refine ⟨' ' :: joinWith ' ' (m :: more), ?_, Or.inr ⟨_, rfl⟩⟩
      rw [← hjoin]
      simp [joinWith]

theorem parseLine_spaces_witness :
    parseLine "\turl1 0:00 0:10 extra\r".toList =
      some ⟨"url1".toList, "0:00".toList, "0:10".toList⟩ ∧
    ∃ rest, trim "\turl1 0:00 0:10 extra\r".toList =
        "url1".toList ++ ' ' :: ("0:00".toList ++ ' ' :: ("0:10".toList ++ rest)) ∧
      (rest = [] ∨ ∃ r, rest = ' ' :: r) :=
  ⟨by decide,
   ((parseLine_spaces "\turl1 0:00 0:10 extra\r".toList).2
      ⟨"url1".toList, "0:00".toList, "0:10".toList⟩ (by decide)).2.2.2⟩

/-- C8 as stated fails on a line whose two fields are separated by two spaces:
it has fewer than three white-space-separated fields and still gives an entry,
whose start is empty; and a line of three fields separated by tabs gives none. -/
theorem parseInput_run_of_spaces :
    whitespaceFields "a  b".toList = ["a".toList, "b".toList] ∧
    parseInput "a  b".toList = [⟨"a".toList, [], "b".toList⟩] ∧
    whitespaceFields "url\t0:00\t0:10".toList = ["url".toList, "0:00".toList, "0:10".toList] ∧
    parseInput "url\t0:00\t0:10".toList = [] ∧
    ¬ ∀ line : JSString, (whitespaceFields line).length < 3 → parseInput line = [] := by
  refine ⟨by decide, by decide, by decide, by decide, fun h => ?_⟩
  have := h "a  b".toList (by decide)
  revert this
  decide


/-! ## Rounding is exact on small integers -/

theorem roundBinary_of_dvd (unit top : ℕ) (q : ℚ) (hden : q.den = 1)
    (hdvd : 2 ^ (Nat.log 2 (q.num.natAbs * 2 ^ unit) - 52) ∣ q.num.natAbs * 2 ^ unit)
    (hlt : q.num.natAbs * 2 ^ unit < 2 ^ top) : roundBinary unit top q = .fin q := by
  unfold roundBinary
  simp only [hden, Nat.div_one, one_mul]
  generalize hs : Nat.log 2 (q.num.natAbs * 2 ^ unit) - 52 = s at hdvd ⊢
  have hcast : ((q.num.natAbs * 2 ^ unit : ℕ) : ℚ) = ((q.num.natAbs : ℤ) : ℚ) * 2 ^ unit := by
    rw [Nat.cast_mul, Nat.cast_pow, Nat.cast_ofNat, Int.cast_natCast]
  generalize ha : q.num.natAbs * 2 ^ unit = a at hdvd hlt hcast ⊢
  have hpow : (2 : ℚ) ^ unit ≠ 0 := pow_ne_zero _ (by norm_num)
  obtain ⟨t, ht⟩ := hdvd
  have hpos : 0 < 2 ^ s := Nat.pow_pos (by norm_num)
  have hmod : a % 2 ^ s = 0 := by rw [ht]; exact Nat.mul_mod_right _ _
  have hdiv : a / 2 ^ s = t := by rw [ht]; exact Nat.mul_div_cancel_left _ hpos
  have hcond : ¬ (2 ^ s < 2 * (a % 2 ^ s) ∨ (2 * (a % 2 ^ s) = 2 ^ s ∧ a / 2 ^ s % 2 = 1)) := by
    rw [hmod]
    omega
  rw [if_neg hcond, hdiv]
  have hk : t * 2 ^ s = a := by rw [ht]; exact Nat.mul_comm _ _
  rw [hk, if_neg (not_le.2 hlt)]
  refine congrArg JSNumber.fin ?_
  have hq : (q.num : ℚ) = q := Rat.coe_int_num_of_den_eq_one hden
  by_cases hneg : q < 0
  · have hn : q.num < 0 := by rwa [Rat.num_neg]
    rw [if_pos hneg, hcast, Int.ofNat_natAbs_of_nonpos hn.le, Int.cast_neg, hq]
    field_simp
  · have hn : 0 ≤ q.num := by
      rw [Rat.num_nonneg]; exact not_lt.1 hneg
    rw [if_neg hneg, hcast, Int.natAbs_of_nonneg hn, hq]
    field_simp

theorem log_mul_pow (m e k : ℕ) (h1 : 2 ^ k ≤ m) (h2 : m < 2 ^ (k + 1)) :
    Nat.log 2 (m * 2 ^ e) = k + e := by
  apply Nat.log_eq_of_pow_le_of_lt_pow
  · rw [pow_add]; exact Nat.mul_le_mul_right _ h1
  · rw [show k + e + 1 = (k + 1) + e by omega, pow_add]
    exact Nat.mul_lt_mul_of_lt_of_le h2 le_rfl (Nat.pow_pos (by norm_num))

theorem shift_dvd (m e p : ℕ) (h : m ≤ 2 ^ (p + 1)) :
    2 ^ (Nat.log 2 (m * 2 ^ e) - p) ∣ m * 2 ^ e := by
  rcases Nat.eq_zero_or_pos m with h0 | hpos
  · rw [h0, Nat.zero_mul]; exact dvd_zero _
  · rcases Nat.lt_or_eq_of_le h with hlt | heq
    · have hlog : Nat.log 2 (m * 2 ^ e) < p + 1 + e := by
        apply Nat.log_lt_of_lt_pow (Nat.mul_ne_zero hpos.ne' (pow_ne_zero _ (by norm_num)))
        rw [pow_add]
        exact Nat.mul_lt_mul_of_lt_of_le hlt le_rfl (Nat.pow_pos (by norm_num))
      exact Dvd.dvd.mul_left (pow_dvd_pow 2 (by omega)) _
    · rw [heq, ← pow_add, Nat.log_pow (by norm_num)]
      exact pow_dvd_pow 2 (by omega)

theorem mul_pow_lt (m e a b : ℕ) (h : m ≤ 2 ^ a) (hab : a + e < b) : m * 2 ^ e < 2 ^ b := by
  calc m * 2 ^ e ≤ 2 ^ a * 2 ^ e := Nat.mul_le_mul_right _ h
    _ = 2 ^ (a + e) := (pow_add 2 a e).symm
    _ < 2 ^ b := Nat.pow_lt_pow_right (by norm_num) hab

theorem roundRat_intCast (z : ℤ) (h : z.natAbs ≤ 2 ^ 53) : roundRat (z : ℚ) = .fin z := by
  apply roundBinary_of_dvd
  · exact Rat.intCast_den z
  · rw [Rat.intCast_num]
    exact shift_dvd z.natAbs 1074 52 h
  · rw [Rat.intCast_num]
    exact mul_pow_lt z.natAbs 1074 53 2098 h (by norm_num)

theorem roundRat_natCast (n : ℕ) (h : n ≤ 2 ^ 53) : roundRat (n : ℚ) = .fin n := by
  have := roundRat_intCast (n : ℤ) (by simpa using h)
  simpa using this

/-- A tie between two neighbours of the grid goes to the one with the even
significand: `2 * M + 1` is half way between `2 * M` and `2 * M + 2`. -/
theorem roundBinary_tie_even (unit top M : ℕ) (h1 : 2 ^ 52 ≤ M) (h2 : M < 2 ^ 53)
    (heven : M % 2 = 0) (htop : 54 + unit < top) :
    roundBinary unit top ((2 * M + 1 : ℕ) : ℚ) = .fin ((2 * M : ℕ) : ℚ) := by
  have hlog : Nat.log 2 ((2 * M + 1) * 2 ^ unit) = 53 + unit :=
    log_mul_pow (2 * M + 1) unit 53 (by omega) (by omega)
  have ha : (2 * M + 1) * 2 ^ unit = 2 ^ (unit + 1) * M + 2 ^ unit := by ring
  have hpos : 0 < 2 ^ unit := Nat.pow_pos (by norm_num)
  have hlt : 2 ^ unit < 2 ^ (unit + 1) := Nat.pow_lt_pow_right (by norm_num) (by omega)
  have hdiv : (2 * M + 1) * 2 ^ unit / 2 ^ (unit + 1) = M := by
    rw [ha, Nat.mul_add_div (Nat.pow_pos (by norm_num)), Nat.div_eq_of_lt hlt, Nat.add_zero]
  have hmod : (2 * M + 1) * 2 ^ unit % 2 ^ (unit + 1) = 2 ^ unit := by
    rw [ha, Nat.mul_add_mod, Nat.mod_eq_of_lt hlt]
  have hsucc : 2 ^ (unit + 1) = 2 * 2 ^ unit := by ring
  unfold roundBinary
  simp only [Rat.num_natCast, Rat.den_natCast, Int.natAbs_ofNat, Nat.div_one, one_mul, hlog]
  rw [show 53 + unit - 52 = unit + 1 by omega, hdiv, hmod]
  have hcond : ¬ (2 ^ (unit + 1) < 2 * 2 ^ unit ∨ (2 * 2 ^ unit = 2 ^ (unit + 1) ∧ M % 2 = 1)) := by
    rw [hsucc]; omega
  rw [if_neg hcond]
  have hk : M * 2 ^ (unit + 1) < 2 ^ top := mul_pow_lt M (unit + 1) 53 top h2.le (by omega)
  rw [if_neg (not_le.2 hk), if_neg (by exact_mod_cast not_lt.2 (Nat.zero_le _))]
  refine congrArg JSNumber.fin ?_
  have hpow : (2 : ℚ) ^ unit ≠ 0 := pow_ne_zero _ (by norm_num)
  push_cast
  field_simp
  ring

/-! ## `Number` on strings of decimal digits -/

theorem char_of_toNat_bounds (c : Char) (lo hi : Nat) (h1 : lo ≤ c.toNat) (h2 : c.toNat ≤ hi) :
    c ∈ (List.range (hi + 1 - lo)).map (fun i => Char.ofNat (lo + i)) := by
  rw [List.mem_map]
  refine ⟨c.toNat - lo, List.mem_range.2 (by omega), ?_⟩
  rw [show lo + (c.toNat - lo) = c.toNat by omega]
  exact Char.ofNat_toNat c

theorem isDigitIn_ten_mem (c : Char) (h : isDigitIn 10 c = true) :
    c ∈ ['0', '1', '2', '3', '4', '5', '6', '7', '8', '9'] := by
  have hle : ∀ a b : Char, a ≤ b ↔ a.toNat ≤ b.toNat := fun a b => Iff.rfl
  unfold isDigitIn digitValue at h
  split at h
  · rename_i v hv
    split at hv
    · rename_i hc
      rw [hle, hle] at hc
      obtain ⟨a, ha, rfl⟩ := List.mem_map.1 (char_of_toNat_bounds c 48 57 hc.1 hc.2)
      have ha1 : a < 10 := by simpa using ha
      interval_cases a <;> decide
    · split at hv
      · rename_i hc
        rw [hle, hle] at hc
        have h97 : 97 ≤ c.toNat := hc.1
        simp only [Option.some.injEq] at hv
        subst hv
        simp only [decide_eq_true_eq] at h
        omega
      · split at hv
        · rename_i hc
          rw [hle, hle] at hc
          have h65 : 65 ≤ c.toNat := hc.1
          simp only [Option.some.injEq] at hv
          subst hv
          simp only [decide_eq_true_eq] at h
          omega
        · cases hv
  · cases h

theorem digits_forall (P : Char → Prop) (hP : ∀ c ∈ ['0', '1', '2', '3', '4', '5', '6', '7', '8', '9'], P c)
    (ds : JSString) (h : ds.all (isDigitIn 10) = true) : ∀ c ∈ ds, P c :=
  fun c hc => hP c (isDigitIn_ten_mem c (List.all_eq_true.1 h c hc))

theorem trim_digits (ds : JSString) (h : ds.all (isDigitIn 10) = true) : trim ds = ds := by
  cases ds with
  | nil => rfl
  | cons c tl =>
    have hws := digits_forall (fun c => isJSWhiteSpace c = false) (by decide) _ h
    have hne : c :: tl ≠ [] := by simp
    have := trim_padded [] [] (c :: tl).dropLast c ((c :: tl).getLast hne) (c :: tl)
      (by simp) (by simp) (hws c (by simp)) (hws _ (List.getLast_mem hne)) ⟨tl, rfl⟩
      (List.dropLast_append_getLast hne).symm
    simpa using this

theorem roundRat_nonneg (q : ℚ) (h : 0 ≤ q) :
    roundRat q = .inf false ∨ ∃ x, roundRat q = .fin x := by
  have hd : decide (q < 0) = false := decide_eq_false (not_lt.2 h)
  unfold roundRat roundBinary
  simp only []
  rw [hd]
  exact (ite_eq_or_eq _ _ _).imp id (fun h1 => ⟨_, h1⟩)

theorem roundDecimal_zero (m : ℕ) : roundDecimal false m 0 = roundRat m := by
  unfold roundDecimal
  rw [zpow_zero, mul_one]
  rcases roundRat_nonneg (m : ℚ) (Nat.cast_nonneg m) with h | ⟨x, h⟩
  · rw [h]
  · rw [h]; rfl

theorem parseUnsignedDecimal_digits (ds : JSString) (hne : ds ≠ [])
    (h : ds.all (isDigitIn 10) = true) :
    parseUnsignedDecimal false ds = roundRat (digitsValue 10 ds) := by
  have hinf : ds ≠ "Infinity".toList := by
    intro h0
    rw [h0] at h
    revert h
    decide
  have htake : ds.takeWhile (isDigitIn 10) = ds :=
    List.takeWhile_eq_self_iff.2 (fun c hc => List.all_eq_true.1 h c hc)
  have hdrop : ds.dropWhile (isDigitIn 10) = [] :=
    List.dropWhile_eq_nil_iff.2 (fun c hc => List.all_eq_true.1 h c hc)
  unfold parseUnsignedDecimal
  simp only [if_neg hinf, htake, hdrop, if_neg hne, parseExponent]
  exact roundDecimal_zero _

theorem Number_digits (ds : JSString) (hne : ds ≠ []) (h : ds.all (isDigitIn 10) = true) :
    Number ds = roundRat (digitsValue 10 ds) := by
  have hc := digits_forall
    (fun c => c ≠ '+' ∧ c ≠ '-' ∧ c ≠ 'x' ∧ c ≠ 'X' ∧ c ≠ 'o' ∧ c ≠ 'O' ∧ c ≠ 'b' ∧ c ≠ 'B')
    (by decide) _ h
  unfold Number
  rw [trim_digits ds h]
  split
  · exact absurd rfl hne
  · exact absurd rfl (hc 'x' (by simp)).2.2.1
  · exact absurd rfl (hc 'X' (by simp)).2.2.2.1
  · exact absurd rfl (hc 'o' (by simp)).2.2.2.2.1
  · exact absurd rfl (hc 'O' (by simp)).2.2.2.2.2.1
  · exact absurd rfl (hc 'b' (by simp)).2.2.2.2.2.2.1
  · exact absurd rfl (hc 'B' (by simp)).2.2.2.2.2.2.2
  · exact absurd rfl (hc '+' (by simp)).1
  · exact absurd rfl (hc '-' (by simp)).2.1
  · exact parseUnsignedDecimal_digits ds hne h


/-! ## `timeToSeconds` on digit strings (C1) -/

theorem isDigits_iff (s : JSString) (h : isDigits s = true) :
    s ≠ [] ∧ s.all (isDigitIn 10) = true := by
  unfold isDigits at h
  simp only [Bool.and_eq_true, Bool.not_eq_true', List.isEmpty_eq_false] at h
  refine ⟨fun h0 => ?_, h.2⟩
  rw [h0] at h
  simp at h

theorem Number_of_isDigits (s : JSString) (h : isDigits s = true) (hb : decimal s ≤ 2 ^ 53) :
    Number s = .fin ((decimal s : ℕ) : ℚ) := by
  obtain ⟨hne, hall⟩ := isDigits_iff s h
  rw [Number_digits s hne hall]
  exact roundRat_natCast _ hb

theorem JSNumber.mul_natCast (a b : ℕ) (hb : b ≤ 2 ^ 53) (h : a * b ≤ 2 ^ 53) :
    (JSNumber.fin (a : ℚ)).mul (.ofNat b) = .fin ((a * b : ℕ) : ℚ) := by
  unfold JSNumber.ofNat
  rw [roundRat_natCast b hb]
  show roundRat ((a : ℚ) * (b : ℚ)) = _
  rw [← Nat.cast_mul]
  exact roundRat_natCast _ h

theorem JSNumber.add_natCast (a b : ℕ) (h : a + b ≤ 2 ^ 53) :
    (JSNumber.fin (a : ℚ)).add (.fin (b : ℚ)) = .fin ((a + b : ℕ) : ℚ) := by
  show roundRat ((a : ℚ) + (b : ℚ)) = _
  rw [← Nat.cast_add]
  exact roundRat_natCast _ h

theorem JSNumber.add_nan (x : JSNumber) : x.add .nan = .nan := by
  cases x <;> rfl

theorem isDigits_not_mem_colon (s : JSString) (h : isDigits s = true) : ':' ∉ s := by
  intro hmem
  exact digits_forall (fun c => c ≠ ':') (by decide) s (isDigits_iff s h).2 ':' hmem rfl

theorem timeToSeconds_bare (s : JSString) (h : ':' ∉ s) : timeToSeconds s = Number s := by
  have hs : split ':' s = [s] := by
    have := split_joinWith ':' [s] (by simp) (by simpa using h)
    simpa [joinWith] using this
  unfold timeToSeconds
  rw [hs]
  rfl

theorem timeToSeconds_two (m s : JSString) (hm : ':' ∉ m) (hs : ':' ∉ s) :
    timeToSeconds (joinWith ':' [m, s]) = ((Number m).mul (.ofNat 60)).add (Number s) := by
  have h := split_joinWith ':' [m, s] (by simp) (by
    intro x hx
    simp only [List.mem_cons, List.mem_singleton, List.not_mem_nil, or_false] at hx
    rcases hx with rfl | rfl <;> assumption)
  unfold timeToSeconds
  rw [h]
  rfl

theorem timeToSeconds_three (h m s : JSString) (hh : ':' ∉ h) (hm : ':' ∉ m) (hs : ':' ∉ s) :
    timeToSeconds (joinWith ':' [h, m, s]) =
      (((Number h).mul (.ofNat 3600)).add ((Number m).mul (.ofNat 60))).add (Number s) := by
  have h1 := split_joinWith ':' [h, m, s] (by simp) (by
    intro x hx
    simp only [List.mem_cons, List.mem_singleton, List.not_mem_nil, or_false] at hx
    rcases hx with rfl | rfl | rfl <;> assumption)
  unfold timeToSeconds
  rw [h1]
  rfl

theorem timeToSeconds_exact (H M S : JSString) (hH : isDigits H = true) (hM : isDigits M = true)
    (hS : isDigits S = true) (hb : 3600 * decimal H + 60 * decimal M + decimal S ≤ 2 ^ 53) :
    timeToSeconds (joinWith ':' [H, M, S]) =
      .fin ((3600 * decimal H + 60 * decimal M + decimal S : ℕ) : ℚ) ∧
    timeToSeconds (joinWith ':' [M, S]) = .fin ((60 * decimal M + decimal S : ℕ) : ℚ) ∧
    timeToSeconds S = .fin ((decimal S : ℕ) : ℚ) := by
  have cH := isDigits_not_mem_colon H hH
  have cM := isDigits_not_mem_colon M hM
  have cS := isDigits_not_mem_colon S hS
  have nH := Number_of_isDigits H hH (by omega)
  have nM := Number_of_isDigits M hM (by omega)
  have nS := Number_of_isDigits S hS (by omega)
  have h60 : (60 : ℕ) ≤ 2 ^ 53 := by norm_num
  have h3600 : (3600 : ℕ) ≤ 2 ^ 53 := by norm_num
  refine ⟨?_, ?_, ?_⟩
  · rw [timeToSeconds_three H M S cH cM cS, nH, nM, nS,
      JSNumber.mul_natCast _ 3600 h3600 (by omega), JSNumber.mul_natCast _ 60 h60 (by omega),
      JSNumber.add_natCast _ _ (by omega), JSNumber.add_natCast _ _ (by omega)]
    congr 2
    ring
  · rw [timeToSeconds_two M S cM cS, nM, nS, JSNumber.mul_natCast _ 60 h60 (by omega),
      JSNumber.add_natCast _ _ (by omega)]
    congr 2
    ring
  · rw [timeToSeconds_bare S cS, nS]

/-- C1 (amended): for decimal digit strings `H`, `M`, `S` that write integers
with `3600 * H + 60 * M + S` at most `2 ^ 53`, `timeToSeconds` gives
`3600 * H + 60 * M + S` on `H:M:S`, `60 * M + S` on `M:S` and `S` on the bare
token `S`. -/
theorem timeToSeconds_digits (H M S : JSString) (hH : isDigits H = true)
    (hM : isDigits M = true) (hS : isDigits S = true)
    (hb : 3600 * decimal H + 60 * decimal M + decimal S ≤ 2 ^ 53) :
    timeToSeconds (H ++ ':' :: (M ++ ':' :: S)) =
      .fin ((3600 * decimal H + 60 * decimal M + decimal S : ℕ) : ℚ) ∧
    timeToSeconds (M ++ ':' :: S) = .fin ((60 * decimal M + decimal S : ℕ) : ℚ) ∧
    timeToSeconds S = .fin ((decimal S : ℕ) : ℚ) :=
  timeToSeconds_exact H M S hH hM hS hb

theorem timeToSeconds_digits_witness :
    timeToSeconds "01:02:03".toList = .fin 3723 ∧
    timeToSeconds "02:30".toList = .fin 150 ∧
    timeToSeconds "45".toList = .fin 45 := by
  have h1 := timeToSeconds_digits "01".toList "02".toList "03".toList
    (by decide) (by decide) (by decide) (by decide)
  have h2 := timeToSeconds_digits "0".toList "02".toList "30".toList
    (by decide) (by decide) (by decide) (by decide)
  have h3 := timeToSeconds_digits "0".toList "0".toList "45".toList
    (by decide) (by decide) (by decide) (by decide)
  rw [show decimal "01".toList = 1 by decide, show decimal "02".toList = 2 by decide,
    show decimal "03".toList = 3 by decide] at h1
  rw [show decimal "02".toList = 2 by decide, show decimal "30".toList = 30 by decide] at h2
  rw [show decimal "45".toList = 45 by decide] at h3
  norm_num at h1 h2 h3
  exact ⟨h1.1, h2.2.1, h3.2.2⟩

/-- C1 as stated fails beyond `2 ^ 53`: the bare token `9007199254740993`
(`2 ^ 53 + 1`) is rounded to the Number `9007199254740992`. -/
theorem timeToSeconds_rounds :
    timeToSeconds "9007199254740993".toList = .fin 9007199254740992 ∧
    timeToSeconds "9007199254740993".toList ≠ .fin ((decimal "9007199254740993".toList : ℕ) : ℚ) := by
  have hd : isDigits "9007199254740993".toList = true := by decide
  have hv : decimal "9007199254740993".toList = 2 * 4503599627370496 + 1 := by decide
  have h : timeToSeconds "9007199254740993".toList = .fin 9007199254740992 := by
    rw [timeToSeconds_bare _ (isDigits_not_mem_colon _ hd),
      Number_digits _ (isDigits_iff _ hd).1 (isDigits_iff _ hd).2]
    show roundRat ((decimal "9007199254740993".toList : ℕ) : ℚ) = _
    rw [hv]
    have := roundBinary_tie_even 1074 2098 4503599627370496 (by norm_num) (by norm_num)
      (by norm_num) (by norm_num)
    unfold roundRat
    rw [this]
    norm_num
  refine ⟨h, ?_⟩
  rw [h, hv]
  intro h1
  simp only [JSNumber.fin.injEq] at h1
  norm_num at h1


/-! ## `timeToSeconds` never rejects a token (C9) -/

theorem parseUnsignedDecimal_neg_digits (ds : JSString) (hne : ds ≠ [])
    (h : ds.all (isDigitIn 10) = true) :
    parseUnsignedDecimal true ds = roundDecimal true (digitsValue 10 ds) 0 := by
  have hinf : ds ≠ "Infinity".toList := by
    intro h0
    rw [h0] at h
    revert h
    decide
  have htake : ds.takeWhile (isDigitIn 10) = ds :=
    List.takeWhile_eq_self_iff.2 (fun c hc => List.all_eq_true.1 h c hc)
  have hdrop : ds.dropWhile (isDigitIn 10) = [] :=
    List.dropWhile_eq_nil_iff.2 (fun c hc => List.all_eq_true.1 h c hc)
  unfold parseUnsignedDecimal
  simp only [if_neg hinf, htake, hdrop, if_neg hne, parseExponent]

theorem roundDecimal_neg_zero (m : ℕ) (h : m ≤ 2 ^ 53) :
    roundDecimal true m 0 = .fin (-(m : ℚ)) := by
  unfold roundDecimal
  rw [zpow_zero, mul_one, roundRat_natCast m h]
  rfl

theorem Number_minus (ds : JSString) (htrim : trim ('-' :: ds) = '-' :: ds) :
    Number ('-' :: ds) = parseUnsignedDecimal true ds := by
  unfold Number
  rw [htrim]
  split <;> simp_all

theorem Number_minus_five : Number "-5".toList = .fin (-5) := by
  have hv : digitsValue 10 "5".toList = 5 := by decide
  have h := Number_minus "5".toList (by decide)
  rw [parseUnsignedDecimal_neg_digits _ (by decide) (by decide), hv,
    roundDecimal_neg_zero 5 (by norm_num)] at h
  exact_mod_cast h

theorem timeToSeconds_minus_five : timeToSeconds "-5".toList = .fin (-5) := by
  rw [timeToSeconds_bare _ (by decide)]
  exact Number_minus_five

theorem not_isNonNegInteger_neg : ¬ (JSNumber.fin (-5)).IsNonNegInteger := by
  unfold JSNumber.IsNonNegInteger
  norm_num

/-- C9 as stated fails: no token is rejected.  The token `-5` is coerced to the
negative Number `-5` and the token `abc` to `NaN`; neither is a non-negative
integer. -/
theorem timeToSeconds_coerces :
    timeToSeconds "-5".toList = .fin (-5) ∧
    ¬ (timeToSeconds "-5".toList).IsNonNegInteger ∧
    timeToSeconds "abc".toList = .nan ∧
    ¬ (timeToSeconds "abc".toList).IsNonNegInteger := by
  have h1 := timeToSeconds_minus_five
  have h2 : timeToSeconds "abc".toList = .nan := by rfl
  refine ⟨h1, ?_, h2, ?_⟩
  · rw [h1]; exact not_isNonNegInteger_neg
  · rw [h2]; exact fun h => h

/-- C9 (amended): `timeToSeconds` raises no error and returns a Number for
every token.  For a token made of one, two or three decimal digit strings
separated by colons, with a value of at most `2 ^ 53`, that Number is a
non-negative integer.  Any other token is coerced: `abc`, `1:xx` and `1:2:3:4`
give `NaN`, and `-5` gives `-5`. -/
theorem timeToSeconds_total :
    (∀ H M S : JSString, isDigits H = true → isDigits M = true → isDigits S = true →
      3600 * decimal H + 60 * decimal M + decimal S ≤ 2 ^ 53 →
      (timeToSeconds (H ++ ':' :: (M ++ ':' :: S))).IsNonNegInteger ∧
      (timeToSeconds (M ++ ':' :: S)).IsNonNegInteger ∧
      (timeToSeconds S).IsNonNegInteger) ∧
    timeToSeconds "abc".toList = .nan ∧
    timeToSeconds "1:xx".toList = .nan ∧
    timeToSeconds "1:2:3:4".toList = .nan ∧
    timeToSeconds "-5".toList = .fin (-5) := by
  refine ⟨?_, by rfl, ?_, by rfl, timeToSeconds_minus_five⟩
  · intro H M S hH hM hS hb
    obtain ⟨h1, h2, h3⟩ := timeToSeconds_exact H M S hH hM hS hb
    have hnat : ∀ n : ℕ, (JSNumber.fin ((n : ℕ) : ℚ)).IsNonNegInteger := fun n =>
      ⟨Nat.cast_nonneg n, Rat.den_natCast n⟩
    refine ⟨?_, ?_, ?_⟩
    · rw [show H ++ ':' :: (M ++ ':' :: S) = joinWith ':' [H, M, S] from rfl, h1]
      exact hnat _
    · rw [show M ++ ':' :: S = joinWith ':' [M, S] from rfl, h2]
      exact hnat _
    · rw [h3]
      exact hnat _
  · show ((Number "1".toList).mul (.ofNat 60)).add (Number "xx".toList) = .nan
    rw [show Number "xx".toList = .nan from by rfl, JSNumber.add_nan]

theorem timeToSeconds_total_witness :
    (timeToSeconds "01:02:03".toList).IsNonNegInteger ∧
    (timeToSeconds "02:03".toList).IsNonNegInteger ∧
    (timeToSeconds "03".toList).IsNonNegInteger :=
  timeToSeconds_total.1 "01".toList "02".toList "03".toList
    (by decide) (by decide) (by decide) (by decide)

/-! ## The trim call of `processVideo` (C10) -/

theorem JSNumber.sub_natCast (a b : ℕ) (ha : a ≤ 2 ^ 53) (hb : b ≤ 2 ^ 53) :
    (JSNumber.fin (a : ℚ)).sub (.fin (b : ℚ)) = .fin (((a : ℤ) - (b : ℤ) : ℤ) : ℚ) := by
  show roundRat ((a : ℚ) + -(b : ℚ)) = _
  have h : ((a : ℚ) + -(b : ℚ)) = (((a : ℤ) - (b : ℤ) : ℤ) : ℚ) := by push_cast; ring
  rw [h]
  exact roundRat_intCast _ (by omega)

theorem processVideo_cases_trace (ext : Collaborators) (dir : JSString) (e : Entry) (i : Nat)
    (w : World) (videoId title : JSString) (fs : FileSystem)
    (hid : getVideoId e.url = some videoId) (hne : videoId ≠ [])
    (hinfo : ext.getInfo
      ((w.log (.processVideo i e)).log
        (.getInfo ("https://www.youtube.com/watch?v=".toList ++ videoId)))
      ("https://www.youtube.com/watch?v=".toList ++ videoId) = .ok title)
    (hdl : ext.download
      (((w.log (.processVideo i e)).log
        (.getInfo ("https://www.youtube.com/watch?v=".toList ++ videoId))).log
        (.download ("https://www.youtube.com/watch?v=".toList ++ videoId)
          (tempFullAudio dir videoId)))
      ("https://www.youtube.com/watch?v=".toList ++ videoId) (tempFullAudio dir videoId) =
        (none, fs)) :
    (processVideo ext dir e i w).2.trace =
      w.trace ++
        [.processVideo i e,
         .getInfo ("https://www.youtube.com/watch?v=".toList ++ videoId),
         .download ("https://www.youtube.com/watch?v=".toList ++ videoId)
           (tempFullAudio dir videoId),
         .trim (tempFullAudio dir videoId) (timeToSeconds e.start)
           ((timeToSeconds e.end).sub (timeToSeconds e.start)) (tempClipAudio dir videoId)] := by
  unfold processVideo
  simp only [hid, if_neg hne, hinfo, hdl]
  split <;> simp [World.log]

/-- C10 (amended): for every entry whose URL gives a video identifier, whose
metadata are read and whose download completes, `processVideo` calls the trim
tool exactly once, with start offset `timeToSeconds(start)` and duration
`timeToSeconds(end) - timeToSeconds(start)`, whatever the sign of the duration:
the calls it makes are `getInfo`, the download and this trim call. -/
theorem processVideo_trim (ext : Collaborators) (dir : JSString) (e : Entry) (i : Nat)
    (w : World) (videoId title : JSString) (fs : FileSystem)
    (hid : getVideoId e.url = some videoId) (hne : videoId ≠ [])
    (hinfo : ext.getInfo
      ((w.log (.processVideo i e)).log
        (.getInfo ("https://www.youtube.com/watch?v=".toList ++ videoId)))
      ("https://www.youtube.com/watch?v=".toList ++ videoId) = .ok title)
    (hdl : ext.download
      (((w.log (.processVideo i e)).log
        (.getInfo ("https://www.youtube.com/watch?v=".toList ++ videoId))).log
        (.download ("https://www.youtube.com/watch?v=".toList ++ videoId)
          (tempFullAudio dir videoId)))
      ("https://www.youtube.com/watch?v=".toList ++ videoId) (tempFullAudio dir videoId) =
        (none, fs)) :
    (processVideo ext dir e i w).2.trace =
      w.trace ++
        [.processVideo i e,
         .getInfo ("https://www.youtube.com/watch?v=".toList ++ videoId),
         .download ("https://www.youtube.com/watch?v=".toList ++ videoId)
           (tempFullAudio dir videoId),
         .trim (tempFullAudio dir videoId) (timeToSeconds e.start)
           ((timeToSeconds e.end).sub (timeToSeconds e.start)) (tempClipAudio dir videoId)] :=
  processVideo_cases_trace ext dir e i w videoId title fs hid hne hinfo hdl

theorem processVideo_trim_witness :
    (processVideo sampleTools sampleDir
      ⟨"https://youtu.be/dQw4w9WgXcQ".toList, "0:00".toList, "0:10".toList⟩ 0 sampleWorld).2.trace =
      [.processVideo 0 ⟨"https://youtu.be/dQw4w9WgXcQ".toList, "0:00".toList, "0:10".toList⟩,
       .getInfo "https://www.youtube.com/watch?v=dQw4w9WgXcQ".toList,
       .download "https://www.youtube.com/watch?v=dQw4w9WgXcQ".toList
         "/work/temp_audio_files/dQw4w9WgXcQ_full.mp3".toList,
       .trim "/work/temp_audio_files/dQw4w9WgXcQ_full.mp3".toList (timeToSeconds "0:00".toList)
         ((timeToSeconds "0:10".toList).sub (timeToSeconds "0:00".toList))
         "/work/temp_audio_files/dQw4w9WgXcQ_clip.mp3".toList] :=
  processVideo_trim sampleTools sampleDir
    ⟨"https://youtu.be/dQw4w9WgXcQ".toList, "0:00".toList, "0:10".toList⟩ 0 sampleWorld
    "dQw4w9WgXcQ".toList "A title!".toList sampleWorld.fs (by decide) (by decide) rfl rfl

/-- C10 as stated fails: for the entry with start `10` and end `5`, whose
download completes, `processVideo` calls the trim tool with start offset `10`
and the negative duration `-5`, and resolves with a clip descriptor. -/
theorem processVideo_negative_duration :
    Event.trim "/work/temp_audio_files/dQw4w9WgXcQ_full.mp3".toList (.fin 10) (.fin (-5))
        "/work/temp_audio_files/dQw4w9WgXcQ_clip.mp3".toList ∈
      (processVideo sampleTools sampleDir
        ⟨"https://youtu.be/dQw4w9WgXcQ".toList, "10".toList, "5".toList⟩ 0 sampleWorld).2.trace ∧
    (processVideo sampleTools sampleDir
        ⟨"https://youtu.be/dQw4w9WgXcQ".toList, "10".toList, "5".toList⟩ 0 sampleWorld).1 =
      .ok ⟨"/work/temp_audio_files/dQw4w9WgXcQ_clip.mp3".toList, "A title".toList,
        "10".toList, "5".toList⟩ := by
  have h10 : timeToSeconds "10".toList = .fin 10 := by
    have := (timeToSeconds_exact "0".toList "0".toList "10".toList
      (by decide) (by decide) (by decide) (by decide)).2.2
    rw [show decimal "10".toList = 10 by decide] at this
    exact_mod_cast this
  have h5 : timeToSeconds "5".toList = .fin 5 := by
    have := (timeToSeconds_exact "0".toList "0".toList "5".toList
      (by decide) (by decide) (by decide) (by decide)).2.2
    rw [show decimal "5".toList = 5 by decide] at this
    exact_mod_cast this
  have hsub : (timeToSeconds "5".toList).sub (timeToSeconds "10".toList) = .fin (-5) := by
    rw [h10, h5]
    have := JSNumber.sub_natCast 5 10 (by norm_num) (by norm_num)
    norm_num at this
    exact this
  have htrace := processVideo_cases_trace sampleTools sampleDir
      ⟨"https://youtu.be/dQw4w9WgXcQ".toList, "10".toList, "5".toList⟩ 0 sampleWorld
      "dQw4w9WgXcQ".toList "A title!".toList sampleWorld.fs (by decide) (by decide) rfl rfl
  refine ⟨?_, rfl⟩
  rw [htrace]
  show _ ∈ _ ++ [_, _, _, Event.trim _ (timeToSeconds "10".toList)
      ((timeToSeconds "5".toList).sub (timeToSeconds "10".toList)) _]
  rw [hsub, h10]
  exact List.mem_append_right _ (List.mem_cons_of_mem _ (List.mem_cons_of_mem _
    (List.mem_cons_of_mem _ (List.mem_singleton.2 rfl))))


/-! ## The matcher on one-character patterns and on their repetitions -/

theorem run_char_eq (c : Char) : (Regex.char c).run = charStep (fun x => x.toUpper == c.toUpper) := by
  funext s k
  obtain ⟨rest, cap⟩ := s
  cases rest <;> rfl

theorem run_any_eq : Regex.any.run = charStep (fun x => !isLineTerminator x) := by
  funext s k
  obtain ⟨rest, cap⟩ := s
  cases rest with
  | nil => rfl
  | cons x xs =>
    simp only [Regex.run, charStep]
    cases isLineTerminator x <;> rfl

theorem run_cls_eq (negated : Bool) (items : List ClassItem) :
    (Regex.cls negated items).run =
      charStep (fun x => (items.any (ClassItem.test x)) != negated) := by
  funext s k
  obtain ⟨rest, cap⟩ := s
  cases rest <;> rfl

theorem charStep_nil (p : Char → Bool) (cap : Option JSString)
    (k : MatchState → Option MatchState) : charStep p ⟨[], cap⟩ k = none := rfl

theorem charStep_cons_true (p : Char → Bool) (c : Char) (r : JSString) (cap : Option JSString)
    (k : MatchState → Option MatchState) (h : p c = true) :
    charStep p ⟨c :: r, cap⟩ k = k ⟨r, cap⟩ := by
  simp [charStep, h]

theorem charStep_cons_false (p : Char → Bool) (c : Char) (r : JSString) (cap : Option JSString)
    (k : MatchState → Option MatchState) (h : p c = false) :
    charStep p ⟨c :: r, cap⟩ k = none := by
  simp [charStep, h]

/-- A greedy repetition fails when its continuation fails at every suffix. -/
theorem starLoop_none (p : Char → Bool) (k : MatchState → Option MatchState)
    (cap : Option JSString) :
    ∀ (fuel : Nat) (xs : JSString), (∀ ys, ys <:+ xs → k ⟨ys, cap⟩ = none) →
      starLoop (charStep p) fuel ⟨xs, cap⟩ k = none := by
  intro fuel
  induction fuel with
  | zero => intro xs h; exact h xs (List.suffix_refl _)
  | succ fuel ih =>
    intro xs h
    unfold starLoop
    cases xs with
    | nil =>
      rw [charStep_nil]
      exact h [] (List.suffix_refl _)
    | cons c r =>
      cases hp : p c with
      | false =>
        rw [charStep_cons_false _ _ _ _ _ hp]
        exact h _ (List.suffix_refl _)
      | true =>
        rw [charStep_cons_true _ _ _ _ _ hp]
        simp only [List.length_cons, Nat.lt_succ_self, if_true]
        rw [ih r (fun ys hys => h ys (hys.trans (List.suffix_cons c r)))]
        exact h _ (List.suffix_refl _)

/-- A greedy repetition over characters it accepts gives way until its
continuation succeeds: the result is the one at the last position where the
continuation succeeds. -/
theorem starLoop_last (p : Char → Bool) (k : MatchState → Option MatchState)
    (cap : Option JSString) (ys : JSString) (r : MatchState) (hk : k ⟨ys, cap⟩ = some r)
    (hfail : ∀ zs, zs <:+ ys → zs ≠ ys → k ⟨zs, cap⟩ = none) :
    ∀ (pre : JSString) (fuel : Nat), pre.length ≤ fuel → (∀ c ∈ pre, p c = true) →
      starLoop (charStep p) fuel ⟨pre ++ ys, cap⟩ k = some r := by
  have hbase : ∀ fuel, starLoop (charStep p) fuel ⟨ys, cap⟩ k = some r := by
    intro fuel
    cases fuel with
    | zero => exact hk
    | succ fuel =>
      unfold starLoop
      cases ys with
      | nil => rw [charStep_nil]; exact hk
      | cons c zs =>
        cases hp : p c with
        | false => rw [charStep_cons_false _ _ _ _ _ hp]; exact hk
        | true =>
          rw [charStep_cons_true _ _ _ _ _ hp]
          simp only [List.length_cons, Nat.lt_succ_self, if_true]
          rw [starLoop_none p k cap fuel zs (fun ws hws =>
            hfail ws (hws.trans (List.suffix_cons c zs)) (fun heq => by
              have := hws.length_le
              rw [heq] at this
              simp at this))]
          exact hk
  intro pre
  induction pre with
  | nil => intro fuel _ _; exact hbase fuel
  | cons c pre ih =>
    intro fuel hfuel hp
    cases fuel with
    | zero => simp at hfuel
    | succ fuel =>
      unfold starLoop
      rw [List.cons_append, charStep_cons_true _ _ _ _ _ (hp c (by simp))]
      simp only [List.length_cons, Nat.lt_succ_self, if_true]
      rw [ih fuel (by simpa using hfuel) (fun d hd => hp d (List.mem_cons_of_mem _ hd))]

/-! ## Literal text -/

theorem run_lit_nil (s : MatchState) (k : MatchState → Option MatchState) :
    (Regex.lit []).run s k = k s := rfl

theorem run_lit_cons (c : Char) (t : JSString) (s : MatchState)
    (k : MatchState → Option MatchState) :
    (Regex.lit (c :: t)).run s k =
      charStep (fun x => x.toUpper == c.toUpper) s (fun s1 => (Regex.lit t).run s1 k) := by
  show (Regex.seq (Regex.char c) (Regex.lit t)).run s k = _
  rw [Regex.run, run_char_eq]

theorem run_lit_append (t rest : JSString) (cap : Option JSString)
    (k : MatchState → Option MatchState) :
    (Regex.lit t).run ⟨t ++ rest, cap⟩ k = k ⟨rest, cap⟩ := by
  induction t with
  | nil => rfl
  | cons c t ih =>
    rw [run_lit_cons, List.cons_append, charStep_cons_true _ _ _ _ _ (by simp)]
    exact ih

theorem run_lit_mismatch (pre t rest : JSString) (c x : Char) (cap : Option JSString)
    (k : MatchState → Option MatchState) (h : (x.toUpper == c.toUpper) = false) :
    (Regex.lit (pre ++ c :: t)).run ⟨pre ++ x :: rest, cap⟩ k = none := by
  induction pre with
  | nil =>
    rw [List.nil_append, List.nil_append, run_lit_cons]
    exact charStep_cons_false _ _ _ _ _ h
  | cons d pre ih =>
    rw [List.cons_append, List.cons_append, run_lit_cons,
      charStep_cons_true _ _ _ _ _ (by simp)]
    exact ih

/-! ## The capturing group of the pattern -/

theorem run_times (p : Char → Bool) (a : Regex) (ha : a.run = charStep p) :
    ∀ (xs rest : JSString) (cap : Option JSString) (k : MatchState → Option MatchState),
      (∀ c ∈ xs, p c = true) →
      (Regex.times xs.length a).run ⟨xs ++ rest, cap⟩ k = k ⟨rest, cap⟩ := by
  intro xs
  induction xs with
  | nil => intro rest cap k _; rfl
  | cons c xs ih =>
    intro rest cap k h
    show (Regex.seq a (Regex.times xs.length a)).run _ k = _
    rw [Regex.run, ha, List.cons_append, charStep_cons_true _ _ _ _ _ (h c (by simp))]
    exact ih rest cap k (fun d hd => h d (List.mem_cons_of_mem _ hd))

theorem run_group_times (p : Char → Bool) (a : Regex) (ha : a.run = charStep p)
    (xs rest : JSString) (cap : Option JSString) (k : MatchState → Option MatchState)
    (h : ∀ c ∈ xs, p c = true) :
    (Regex.group (Regex.times xs.length a)).run ⟨xs ++ rest, cap⟩ k = k ⟨rest, some xs⟩ := by
  rw [Regex.run, run_times p a ha xs rest cap _ h]
  simp


/-! ## `getVideoId` on the three URL shapes (C3) -/

/-- The characters of a video identifier. -/
theorem isIdChar_mem (c : Char) (h : isIdChar c = true) :
    c ∈ "0123456789ABCDEFGHIJKLMNOPQRSTUVWXYZabcdefghijklmnopqrstuvwxyz-_".toList := by
  unfold isIdChar at h
  simp only [Bool.or_eq_true, Bool.and_eq_true, decide_eq_true_eq, beq_iff_eq] at h
  rcases h with (((h | h) | h) | h) | h
  · obtain ⟨a, ha, rfl⟩ := List.mem_map.1 (char_of_toNat_bounds c 48 57 h.1 h.2)
    have ha1 : a < 10 := by simpa using ha
    interval_cases a <;> decide
  · obtain ⟨a, ha, rfl⟩ := List.mem_map.1 (char_of_toNat_bounds c 65 90 h.1 h.2)
    have ha1 : a < 26 := by simpa using ha
    interval_cases a <;> decide
  · obtain ⟨a, ha, rfl⟩ := List.mem_map.1 (char_of_toNat_bounds c 97 122 h.1 h.2)
    have ha1 : a < 26 := by simpa using ha
    interval_cases a <;> decide
  · obtain ⟨a, ha, rfl⟩ := List.mem_map.1 (char_of_toNat_bounds c 45 45 h.ge h.le)
    have ha1 : a < 1 := by simpa using ha
    interval_cases a; decide
  · obtain ⟨a, ha, rfl⟩ := List.mem_map.1 (char_of_toNat_bounds c 95 95 h.ge h.le)
    have ha1 : a < 1 := by simpa using ha
    interval_cases a; decide

theorem isIdChar_forall (P : Char → Prop)
    (hP : ∀ c ∈ "0123456789ABCDEFGHIJKLMNOPQRSTUVWXYZabcdefghijklmnopqrstuvwxyz-_".toList, P c)
    (c : Char) (h : isIdChar c = true) : P c :=
  hP c (isIdChar_mem c h)

theorem isIdChar_facts (c : Char) (h : isIdChar c = true) :
    (c.toUpper == '/'.toUpper) = false ∧ (!isLineTerminator c) = true ∧
    (([ClassItem.chr '/'].any (ClassItem.test c)) != true) = true ∧
    (([ClassItem.chr '?', ClassItem.chr '&'].any (ClassItem.test c)) != false) = false ∧
    (([ClassItem.chr '"', ClassItem.chr '&', ClassItem.chr '?', ClassItem.chr '/',
        ClassItem.space].any (ClassItem.test c)) != true) = true :=
  isIdChar_forall (fun c => (c.toUpper == '/'.toUpper) = false ∧ (!isLineTerminator c) = true ∧
    (([ClassItem.chr '/'].any (ClassItem.test c)) != true) = true ∧
    (([ClassItem.chr '?', ClassItem.chr '&'].any (ClassItem.test c)) != false) = false ∧
    (([ClassItem.chr '"', ClassItem.chr '&', ClassItem.chr '?', ClassItem.chr '/',
        ClassItem.space].any (ClassItem.test c)) != true) = true) (by decide) c h

theorem charStep_suffix_none (p : Char → Bool) (xs : JSString) (h : ∀ c ∈ xs, p c = false)
    (cap : Option JSString) (k : MatchState → Option MatchState) :
    ∀ ys, ys <:+ xs → charStep p ⟨ys, cap⟩ k = none := by
  intro ys hys
  cases ys with
  | nil => rfl
  | cons c r => exact charStep_cons_false _ _ _ _ _ (h c (hys.subset (by simp)))

theorem idGroup_run (id rest : JSString) (cap : Option JSString)
    (k : MatchState → Option MatchState) (hlen : id.length = 11)
    (hid : ∀ c ∈ id, isIdChar c = true) :
    idGroup.run ⟨id ++ rest, cap⟩ k = k ⟨rest, some id⟩ := by
  unfold idGroup
  rw [← hlen]
  exact run_group_times _ _ (run_cls_eq _ _) id rest cap k
    (fun c hc => (isIdChar_facts c (hid c hc)).2.2.2.2)

theorem search_skip (re : Regex) (pre rest : JSString)
    (h : ∀ c ∈ pre, ∀ cs, re.run ⟨c :: cs, none⟩ some = none) :
    re.search (pre ++ rest) = re.search rest := by
  induction pre with
  | nil => rfl
  | cons c pre ih =>
    rw [List.cons_append, Regex.search, h c (by simp)]
    exact ih (fun d hd => h d (List.mem_cons_of_mem _ hd))

theorem search_hit (re : Regex) (c : Char) (cs : JSString) (r : MatchState)
    (h : re.run ⟨c :: cs, none⟩ some = some r) : re.search (c :: cs) = some r := by
  rw [Regex.search, h]

theorem videoIdRegex_run (s : MatchState) :
    videoIdRegex.run s some =
      match (Regex.lit "youtube.com/".toList).run s
          (fun s1 => (Regex.alt pathForm (Regex.alt embedForm queryForm)).run s1
            (fun s2 => idGroup.run s2 some)) with
      | some r => some r
      | none => (Regex.lit "youtu.be/".toList).run s (fun s2 => idGroup.run s2 some) := rfl

theorem videoIdRegex_no_start (c : Char) (cs : JSString)
    (h : (c.toUpper == 'y'.toUpper) = false) :
    videoIdRegex.run ⟨c :: cs, none⟩ some = none := by
  rw [videoIdRegex_run]
  have h1 := run_lit_mismatch [] "outube.com/".toList cs 'y' c none
    (fun s1 => (Regex.alt pathForm (Regex.alt embedForm queryForm)).run s1
      (fun s2 => idGroup.run s2 some)) h
  have h2 := run_lit_mismatch [] "outu.be/".toList cs 'y' c none
    (fun s2 => idGroup.run s2 some) h
  simp only [List.nil_append] at h1 h2
  rw [show "youtube.com/".toList = 'y' :: "outube.com/".toList from rfl,
    show "youtu.be/".toList = 'y' :: "outu.be/".toList from rfl, h1, h2]

/-- The short form: `youtu.be/` followed by the identifier. -/
theorem videoIdRegex_short (id : JSString) (hlen : id.length = 11)
    (hid : ∀ c ∈ id, isIdChar c = true) :
    videoIdRegex.run ⟨"youtu.be/".toList ++ id, none⟩ some = some ⟨[], some id⟩ := by
  rw [videoIdRegex_run]
  have h1 := run_lit_mismatch "youtu".toList "e.com/".toList ("be/".toList ++ id) 'b' '.' none
    (fun s1 => (Regex.alt pathForm (Regex.alt embedForm queryForm)).run s1
      (fun s2 => idGroup.run s2 some)) (by decide)
  have h2 := run_lit_append "youtu.be/".toList id none (fun s2 => idGroup.run s2 some)
  have h3 := idGroup_run id [] none some hlen hid
  rw [List.append_nil] at h3
  rw [show "youtu.be/".toList ++ id = "youtu".toList ++ '.' :: ("be/".toList ++ id) from rfl,
    show "youtube.com/".toList = "youtu".toList ++ 'b' :: "e.com/".toList from rfl, h1]
  show (Regex.lit "youtu.be/".toList).run ⟨"youtu.be/".toList ++ id, none⟩ _ = _
  rw [h2]
  exact h3


theorem run_alt (a b : Regex) (s : MatchState) (k : MatchState → Option MatchState) :
    (Regex.alt a b).run s k =
      match a.run s k with
      | some r => some r
      | none => b.run s k := rfl

theorem run_seq (a b : Regex) (s : MatchState) (k : MatchState → Option MatchState) :
    (Regex.seq a b).run s k = a.run s (fun s1 => b.run s1 k) := rfl

theorem run_star (a : Regex) (s : MatchState) (k : MatchState → Option MatchState) :
    (Regex.star a).run s k = starLoop a.run s.rest.length s k := rfl

theorem run_empty (s : MatchState) (k : MatchState → Option MatchState) :
    Regex.empty.run s k = k s := rfl

theorem pathForm_run (s : MatchState) (k : MatchState → Option MatchState) :
    pathForm.run s k =
      charStep (fun x => ([ClassItem.chr '/'].any (ClassItem.test x)) != true) s (fun s1 =>
        starLoop (charStep (fun x => ([ClassItem.chr '/'].any (ClassItem.test x)) != true))
          s1.rest.length s1 (fun s2 =>
            charStep (fun x => x.toUpper == '/'.toUpper) s2 (fun s3 =>
              charStep (fun x => !isLineTerminator x) s3 (fun s4 =>
                starLoop (charStep (fun x => !isLineTerminator x)) s4.rest.length s4 (fun s5 =>
                  charStep (fun x => x.toUpper == '/'.toUpper) s5 k))))) := by
  unfold pathForm Regex.plus
  simp only [run_seq, run_star, run_cls_eq, run_any_eq, run_char_eq]

theorem embedForm_run (s : MatchState) (k : MatchState → Option MatchState) :
    embedForm.run s k =
      match charStep (fun x => x.toUpper == 'v'.toUpper) s
          (fun s1 => charStep (fun x => x.toUpper == '/'.toUpper) s1 k) with
      | some r => some r
      | none =>
        charStep (fun x => x.toUpper == 'e'.toUpper) s (fun s1 =>
          match (Regex.lit "mbed".toList).run s1
              (fun s2 => charStep (fun x => x.toUpper == '/'.toUpper) s2 k) with
          | some r => some r
          | none => charStep (fun x => x.toUpper == '/'.toUpper) s1 k) := by
  unfold embedForm Regex.opt
  simp only [run_seq, run_alt, run_empty, run_char_eq]

theorem queryForm_run (s : MatchState) (k : MatchState → Option MatchState) :
    queryForm.run s k =
      starLoop (charStep (fun x => !isLineTerminator x)) s.rest.length s (fun s1 =>
        charStep (fun x => ([ClassItem.chr '?', ClassItem.chr '&'].any (ClassItem.test x)) != false)
          s1 (fun s2 =>
            charStep (fun x => x.toUpper == 'v'.toUpper) s2 (fun s3 =>
              charStep (fun x => x.toUpper == '='.toUpper) s3 k))) := by
  unfold queryForm
  simp only [run_seq, run_star, run_cls_eq, run_any_eq, run_char_eq]

/-- After `youtube.com/embed/` the path form finds no second slash. -/
theorem pathForm_embed (id : JSString) (hid : ∀ c ∈ id, isIdChar c = true)
    (k : MatchState → Option MatchState) :
    pathForm.run ⟨"embed/".toList ++ id, none⟩ k = none := by
  have hslash : ∀ c ∈ id, (fun x : Char => x.toUpper == '/'.toUpper) c = false :=
    fun c hc => (isIdChar_facts c (hid c hc)).1
  rw [pathForm_run]
  show charStep _ ⟨'e' :: ("mbed/".toList ++ id), none⟩ _ = none
  rw [charStep_cons_true _ _ _ _ _ (by decide)]
  apply starLoop_none
  intro ys hys
  show charStep _ ⟨ys, none⟩ _ = none
  have hys1 : ys <:+ 'm' :: 'b' :: 'e' :: 'd' :: '/' :: id := hys
  simp only [List.suffix_cons_iff] at hys1
  rcases hys1 with rfl | rfl | rfl | rfl | rfl | hys1
  · exact charStep_cons_false _ _ _ _ _ (by decide)
  · exact charStep_cons_false _ _ _ _ _ (by decide)
  · exact charStep_cons_false _ _ _ _ _ (by decide)
  · exact charStep_cons_false _ _ _ _ _ (by decide)
  · rw [charStep_cons_true _ _ _ _ _ (by decide)]
    cases id with
    | nil => rfl
    | cons c id1 =>
      rw [charStep_cons_true _ _ _ _ _ (isIdChar_facts c (hid c (by simp))).2.1]
      apply starLoop_none
      exact charStep_suffix_none _ id1
        (fun d hd => hslash d (List.mem_cons_of_mem _ hd)) none k
  · exact charStep_suffix_none _ id hslash none _ ys hys1

/-- After `youtube.com/watch?v=` the path form finds no slash at all. -/
theorem pathForm_watch (id : JSString) (hid : ∀ c ∈ id, isIdChar c = true)
    (k : MatchState → Option MatchState) :
    pathForm.run ⟨"watch?v=".toList ++ id, none⟩ k = none := by
  rw [pathForm_run]
  show charStep _ ⟨'w' :: ("atch?v=".toList ++ id), none⟩ _ = none
  rw [charStep_cons_true _ _ _ _ _ (by decide)]
  apply starLoop_none
  refine charStep_suffix_none _ _ ?_ none _
  intro c hc
  rcases List.mem_append.1 hc with h | h
  · exact (show ∀ d ∈ "atch?v=".toList, (d.toUpper == '/'.toUpper) = false by decide) c h
  · exact (isIdChar_facts c (hid c h)).1

theorem embedForm_embed (id : JSString) (k : MatchState → Option MatchState) :
    embedForm.run ⟨"embed/".toList ++ id, none⟩ k = k ⟨id, none⟩ := by
  rw [embedForm_run,
    show "embed/".toList ++ id = 'e' :: ("mbed".toList ++ '/' :: id) from rfl,
    charStep_cons_false _ _ _ _ _ (by decide), charStep_cons_true _ _ _ _ _ (by decide)]
  simp only []
  rw [run_lit_append, charStep_cons_true _ _ _ _ _ (by decide)]
  cases k ⟨id, none⟩ <;> rfl

theorem embedForm_watch (rest : JSString) (k : MatchState → Option MatchState) :
    embedForm.run ⟨'w' :: rest, none⟩ k = none := by
  rw [embedForm_run, charStep_cons_false _ _ _ _ _ (by decide),
    charStep_cons_false _ _ _ _ _ (by decide)]

theorem queryForm_watch (id : JSString) (hid : ∀ c ∈ id, isIdChar c = true)
    (k : MatchState → Option MatchState) (r : MatchState) (hk : k ⟨id, none⟩ = some r) :
    queryForm.run ⟨"watch?v=".toList ++ id, none⟩ k = some r := by
  rw [queryForm_run]
  show starLoop _ _ ⟨"watch".toList ++ ('?' :: 'v' :: '=' :: id), none⟩ _ = some r
  apply starLoop_last
  · show charStep _ ⟨'?' :: 'v' :: '=' :: id, none⟩ _ = some r
    rw [charStep_cons_true _ _ _ _ _ (by decide), charStep_cons_true _ _ _ _ _ (by decide),
      charStep_cons_true _ _ _ _ _ (by decide)]
    exact hk
  · intro zs hzs hne
    rcases List.suffix_cons_iff.1 hzs with h | h
    · exact absurd h hne
    · refine charStep_suffix_none _ ('v' :: '=' :: id) ?_ none _ zs h
      intro c hc
      simp only [List.mem_cons] at hc
      rcases hc with rfl | rfl | hc
      · decide
      · decide
      · exact (isIdChar_facts c (hid c hc)).2.2.2.1
  · simp
  · decide

theorem videoIdRegex_embed (id : JSString) (hlen : id.length = 11)
    (hid : ∀ c ∈ id, isIdChar c = true) :
    videoIdRegex.run ⟨"youtube.com/embed/".toList ++ id, none⟩ some = some ⟨[], some id⟩ := by
  have h3 := idGroup_run id [] none some hlen hid
  rw [List.append_nil] at h3
  rw [videoIdRegex_run]
  show (match (Regex.lit "youtube.com/".toList).run
      ⟨"youtube.com/".toList ++ ("embed/".toList ++ id), none⟩ _ with
    | some r => some r
    | none => _) = _
  rw [run_lit_append, run_alt, pathForm_embed id hid, run_alt, embedForm_embed, h3]

theorem videoIdRegex_watch (id : JSString) (hlen : id.length = 11)
    (hid : ∀ c ∈ id, isIdChar c = true) :
    videoIdRegex.run ⟨"youtube.com/watch?v=".toList ++ id, none⟩ some = some ⟨[], some id⟩ := by
  have h3 := idGroup_run id [] none some hlen hid
  rw [List.append_nil] at h3
  rw [videoIdRegex_run]
  show (match (Regex.lit "youtube.com/".toList).run
      ⟨"youtube.com/".toList ++ ("watch?v=".toList ++ id), none⟩ _ with
    | some r => some r
    | none => _) = _
  rw [run_lit_append, run_alt, pathForm_watch id hid, run_alt]
  have hq := queryForm_watch id hid (fun s2 => idGroup.run s2 some) _ h3
  have he := embedForm_watch ("atch?v=".toList ++ id) (fun s2 => idGroup.run s2 some)
  rw [show "watch?v=".toList ++ id = 'w' :: ("atch?v=".toList ++ id) from rfl] at hq ⊢
  simp only [he, hq]

/-- C3: for every identifier of 11 characters among the letters, the digits,
`-` and `_`, `getVideoId` returns exactly the identifier for the watch URL,
the short URL and the embed URL that carry it. -/
theorem getVideoId_three_shapes (id : JSString) (hlen : id.length = 11)
    (hid : ∀ c ∈ id, isIdChar c = true) :
    getVideoId ("https://www.youtube.com/watch?v=".toList ++ id) = some id ∧
    getVideoId ("https://youtu.be/".toList ++ id) = some id ∧
    getVideoId ("https://www.youtube.com/embed/".toList ++ id) = some id := by
  have hskip : ∀ (pre rest : JSString), (∀ c ∈ pre, (c.toUpper == 'y'.toUpper) = false) →
      videoIdRegex.search (pre ++ rest) = videoIdRegex.search rest := fun pre rest h =>
    search_skip videoIdRegex pre rest (fun c hc cs => videoIdRegex_no_start c cs (h c hc))
  refine ⟨?_, ?_, ?_⟩
  · unfold getVideoId
    rw [show "https://www.youtube.com/watch?v=".toList ++ id =
        "https://www.".toList ++ ("youtube.com/watch?v=".toList ++ id) from rfl,
      hskip _ _ (by decide),
      show "youtube.com/watch?v=".toList ++ id = 'y' :: ("outube.com/watch?v=".toList ++ id)
        from rfl,
      search_hit videoIdRegex 'y' ("outube.com/watch?v=".toList ++ id) _
        (videoIdRegex_watch id hlen hid)]
  · unfold getVideoId
    rw [show "https://youtu.be/".toList ++ id =
        "https://".toList ++ ("youtu.be/".toList ++ id) from rfl,
      hskip _ _ (by decide),
      show "youtu.be/".toList ++ id = 'y' :: ("outu.be/".toList ++ id) from rfl,
      search_hit videoIdRegex 'y' ("outu.be/".toList ++ id) _ (videoIdRegex_short id hlen hid)]
  · unfold getVideoId
    rw [show "https://www.youtube.com/embed/".toList ++ id =
        "https://www.".toList ++ ("youtube.com/embed/".toList ++ id) from rfl,
      hskip _ _ (by decide),
      show "youtube.com/embed/".toList ++ id = 'y' :: ("outube.com/embed/".toList ++ id)
        from rfl,
      search_hit videoIdRegex 'y' ("outube.com/embed/".toList ++ id) _
        (videoIdRegex_embed id hlen hid)]

theorem getVideoId_three_shapes_witness :
    getVideoId "https://www.youtube.com/watch?v=dQw4w9WgXcQ".toList = some "dQw4w9WgXcQ".toList ∧
    getVideoId "https://youtu.be/dQw4w9WgXcQ".toList = some "dQw4w9WgXcQ".toList ∧
    getVideoId "https://www.youtube.com/embed/dQw4w9WgXcQ".toList = some "dQw4w9WgXcQ".toList :=
  getVideoId_three_shapes "dQw4w9WgXcQ".toList (by decide) (by decide)

end YtAudio
